import Mathlib

/-
Verification of the taiko go-ethereum fork's core components against their
natural-language specification: the Taiko consensus engine
(consensus/taiko/consensus.go: verifyHeader, verifyHeaderWorker, Seal,
Finalize), the miner worker (miner/taiko_worker.go: BuildTransactionsLists,
commitL2Transactions, sealBlockWith) and the API backend
(eth/taiko_api_backend.go: filterTxs).

Machine integers (Go uint64) are modelled as Nat; Go big.Int values as Int.
Where the source applies a uint64 conversion to a big.Int or int64 value
(big.Int.Uint64(), uint64(unixNow)), the embedding takes the value modulo
2^64 explicitly.  Byte strings are lists of Nat, hashes are Nat.
-/

namespace Taiko

/-! ## Constants (params package) -/

/-- params.MaximumExtraDataSize: maximum byte length of a header's extra-data. -/
def MaximumExtraDataSize : Nat := 32

/-- params.MaxGasLimit = 0x7fffffffffffffff. -/
def MaxGasLimit : Nat := 0x7fffffffffffffff

/-- params.TxGas = 21000: minimal gas cost of any transaction. -/
def TxGas : Nat := 21000

/-- types.EmptyUncleHash = CalcUncleHash(nil) = keccak(rlp([])). -/
def emptyUncleHash : Nat :=
  0x1dcc4de8dec75d7aab85b567b6ccd41ad312451b948a7413f0a142fd40d49347

/-- Go conversion uint64(x) of an int64 value: two's-complement truncation,
i.e. the representative of x modulo 2^64.  Int.emod is non-negative for a
positive modulus, matching the Go semantics. -/
def uint64OfInt (x : Int) : Nat := (x % (2 ^ 64 : Int)).toNat

/-- Go uint64 subtraction x - 1 (wrapping at zero), as used in
`headers[0].Number.Uint64()-1`. -/
def subOneU64 (x : Nat) : Nat := (x + (2 ^ 64 - 1)) % 2 ^ 64

/-! ## Header model (core/types.Header, the fields the engine reads) -/

/-- Shallow embedding of types.Header: the fields read or written by the Taiko
consensus engine.  `number`, `difficulty` and `baseFee` are big.Int values in
the source (`difficulty`/`baseFee` are nullable pointers, hence Option). -/
structure Header where
  parentHash : Nat
  uncleHash : Nat
  number : Int
  time : Nat
  extra : List Nat
  difficulty : Option Int
  gasLimit : Nat
  gasUsed : Nat
  baseFee : Option Int
  root : Nat
  deriving Repr, DecidableEq

/-- Error values returned by the Taiko consensus engine's header checks
(consensus.ErrFutureBlock, ErrOlderBlockTime, consensus.ErrInvalidNumber, ...;
the fmt.Errorf cases are identified by their distinct messages). -/
inductive ConsensusError where
  | futureBlock
  | extraDataTooLong
  | olderBlockTime
  | invalidNumber
  | invalidDifficulty
  | invalidGasLimit
  | invalidGasUsed
  | unclesNotEmpty
  | baseFeeNotZero
  | unknownAncestor
  deriving Repr, DecidableEq

/-- Embedding of (t *Taiko) verifyHeader (consensus/taiko/consensus.go):
the nine single-header consensus checks, in source order, returning the error
of the first failing check, `none` when all pass.  The `seal` argument is
accepted and ignored exactly as in the source. -/
def verifyHeader (header parent : Header) (sealArg : Bool) (unixNow : Int) :
    Option ConsensusError :=
  let _ := sealArg
  if header.time > uint64OfInt unixNow then
    some .futureBlock
  else if header.extra.length > MaximumExtraDataSize then
    some .extraDataTooLong
  else if header.time < parent.time then
    some .olderBlockTime
  else if header.number - parent.number ≠ 1 then
    some .invalidNumber
  else if header.difficulty.isSome ∧ header.difficulty ≠ some 0 then
    some .invalidDifficulty
  else if header.gasLimit > MaxGasLimit then
    some .invalidGasLimit
  else if header.gasUsed > header.gasLimit then
    some .invalidGasUsed
  else if header.uncleHash ≠ emptyUncleHash then
    some .unclesNotEmpty
  else if header.baseFee.isSome then
    some .baseFeeNotZero
  else
    none

/-! ## Specification-side rendering of the nine ordered checks (for C1) -/

/-- Return the error attached to the first failing check of an ordered list of
(failed, error) pairs, `none` when every check passes.  This is the spec's
"short-circuiting on first failure" combinator. -/
def firstFailing : List (Bool × ConsensusError) → Option ConsensusError
  | [] => none
  | (b, e) :: rest => if b then some e else firstFailing rest

/-- The nine rule checks of spec 4.1, in the spec's order, each paired with
its error; written from the spec's words ("future timestamp, extra-data
length, timestamp older than parent, number equals parent's plus one, zero
difficulty, gas limit within maximum, gas used within gas limit, empty uncle
hash, absent base fee"). -/
def specOrderedChecks (header parent : Header) (unixNow : Int) :
    List (Bool × ConsensusError) :=
  [ (header.time > uint64OfInt unixNow, .futureBlock),
    (header.extra.length > MaximumExtraDataSize, .extraDataTooLong),
    (header.time < parent.time, .olderBlockTime),
    (header.number ≠ parent.number + 1, .invalidNumber),
    (header.difficulty.isSome ∧ header.difficulty ≠ some 0, .invalidDifficulty),
    (header.gasLimit > MaxGasLimit, .invalidGasLimit),
    (header.gasUsed > header.gasLimit, .invalidGasUsed),
    (header.uncleHash ≠ emptyUncleHash, .unclesNotEmpty),
    (header.baseFee.isSome, .baseFeeNotZero) ]

end Taiko

namespace Taiko

/-- A concrete parent header used by witnesses: number 10, time 1000. -/
def wParent : Header :=
  { parentHash := 7, uncleHash := emptyUncleHash, number := 10, time := 1000,
    extra := [], difficulty := some 0, gasLimit := 30000000, gasUsed := 0,
    baseFee := none, root := 0 }

/-- A concrete candidate header with number 12 (not parent + 1), all earlier
checks passing: time 1001, no extra data. -/
def wBadNumberHeader : Header :=
  { parentHash := 7, uncleHash := emptyUncleHash, number := 12, time := 1001,
    extra := [], difficulty := some 0, gasLimit := 30000000, gasUsed := 0,
    baseFee := none, root := 0 }

/-- The claim C1 theorem, part one: verifyHeader equals the first-failing
composition of the spec's nine ordered checks. -/
theorem verifyHeader_eq_firstFailing (header parent : Header) (sealArg : Bool)
    (unixNow : Int) :
    verifyHeader header parent sealArg unixNow =
      firstFailing (specOrderedChecks header parent unixNow) := by
  have hnum : (header.number - parent.number ≠ 1) ↔
      (header.number ≠ parent.number + 1) := by omega
  simp only [verifyHeader, specOrderedChecks, firstFailing]
  simp [hnum]

/-- C1: single-header validation applies exactly the nine rule checks in the
order future timestamp, extra-data length, timestamp older than parent, number
equals parent's plus one, zero difficulty, gas limit within maximum, gas used
within gas limit, empty uncle hash, absent base fee; it returns the error of
the first failing check (short-circuiting) and ok when all pass; and whenever
the first three checks pass but number differs from parent's plus one, the
result is the number-mismatch error regardless of all remaining fields. -/
theorem C1_verifyHeader_nine_ordered_checks :
    (∀ (header parent : Header) (sealArg : Bool) (unixNow : Int),
      verifyHeader header parent sealArg unixNow =
        firstFailing (specOrderedChecks header parent unixNow)) ∧
    (∀ (header parent : Header) (sealArg : Bool) (unixNow : Int),
      header.time ≤ uint64OfInt unixNow →
      header.extra.length ≤ MaximumExtraDataSize →
      parent.time ≤ header.time →
      header.number ≠ parent.number + 1 →
      verifyHeader header parent sealArg unixNow =
        some ConsensusError.invalidNumber) := by
  refine ⟨verifyHeader_eq_firstFailing, ?_⟩
  intro header parent sealArg unixNow h1 h2 h3 h4
  unfold verifyHeader
  have hd : header.number - parent.number ≠ 1 := by omega
  simp [Nat.not_lt.mpr h1, Nat.not_lt.mpr h3, Nat.not_lt.mpr h2, hd]

/-- C1 witness: the number-mismatch branch at the concrete pair
(wBadNumberHeader, wParent): first three checks pass, number is 12 instead of
11, and validation returns the number-mismatch error. -/
theorem C1_witness :
    verifyHeader wBadNumberHeader wParent true 2000 =
      some ConsensusError.invalidNumber :=
  C1_verifyHeader_nine_ordered_checks.2 wBadNumberHeader wParent true 2000
    (by decide) (by decide) (by decide) (by decide)

/-! ## Batch verification worker (verifyHeaderWorker, for C7) -/

/-- Embedding of (t *Taiko) verifyHeaderWorker (consensus/taiko/consensus.go).
`getHeader` abstracts the chain store's GetHeader(hash, number) lookup and
`hashFn` abstracts types.Header.Hash(); the parent of header 0 is fetched from
the chain store at number headers[0].Number.Uint64()-1 (wrapping uint64
subtraction), the parent of header index > 0 is the preceding batch header
exactly when its hash equals the parent hash, and a missing parent yields the
unknown-ancestor error. -/
def verifyHeaderWorker (hashFn : Header → Nat)
    (getHeader : Nat → Nat → Option Header) (headers : List Header)
    (seals : List Bool) (index : Fin headers.length) (unixNow : Int) :
    Option ConsensusError :=
  let parent : Option Header :=
    if index.val = 0 then
      let first := headers.get ⟨0, Nat.lt_of_le_of_lt (Nat.zero_le _) index.isLt⟩
      getHeader first.parentHash (subOneU64 (uint64OfInt first.number))
    else
      let prev := headers.get ⟨index.val - 1,
        Nat.lt_of_le_of_lt (Nat.sub_le _ _) index.isLt⟩
      if hashFn prev = (headers.get index).parentHash then some prev else none
  match parent with
  | none => some ConsensusError.unknownAncestor
  | some p => verifyHeader (headers.get index) p (seals.getD index.val true) unixNow

/-- C7: in batch verification the parent of header i is resolved from chain
storage exactly when i = 0; for i > 0 the parent is the preceding batch header
if and only if that header's hash equals header i's parent hash, the chain
store being consulted in no i > 0 case (the result is invariant under changing
the store); whenever no parent resolves, the result is unknown-ancestor. -/
theorem C7_verifyHeaderWorker_parent_resolution :
    ∀ (hashFn : Header → Nat) (getHeader getHeader' : Nat → Nat → Option Header)
      (headers : List Header) (seals : List Bool) (index : Fin headers.length)
      (unixNow : Int),
    (index.val = 0 →
      verifyHeaderWorker hashFn getHeader headers seals index unixNow =
        match getHeader (headers.get index).parentHash
            (subOneU64 (uint64OfInt (headers.get index).number)) with
        | none => some ConsensusError.unknownAncestor
        | some p => verifyHeader (headers.get index) p
            (seals.getD index.val true) unixNow) ∧
    (0 < index.val →
      verifyHeaderWorker hashFn getHeader headers seals index unixNow =
        verifyHeaderWorker hashFn getHeader' headers seals index unixNow) ∧
    (∀ (hlt : index.val - 1 < headers.length), 0 < index.val →
      hashFn (headers.get ⟨index.val - 1, hlt⟩) = (headers.get index).parentHash →
      verifyHeaderWorker hashFn getHeader headers seals index unixNow =
        verifyHeader (headers.get index) (headers.get ⟨index.val - 1, hlt⟩)
          (seals.getD index.val true) unixNow) ∧
    (∀ (hlt : index.val - 1 < headers.length), 0 < index.val →
      hashFn (headers.get ⟨index.val - 1, hlt⟩) ≠ (headers.get index).parentHash →
      verifyHeaderWorker hashFn getHeader headers seals index unixNow =
        some ConsensusError.unknownAncestor) := by
  intro hashFn getHeader getHeader' headers seals index unixNow
  refine ⟨?_, ?_, ?_, ?_⟩
  · intro h0
    have hidx : index = ⟨0, Nat.lt_of_le_of_lt (Nat.zero_le _) index.isLt⟩ :=
      Fin.ext h0
    rw [hidx]
    simp [verifyHeaderWorker]
  · intro hpos
    have h0 : ¬ index.val = 0 := by omega
    simp only [verifyHeaderWorker, h0, if_false]
  · intro hlt hpos hhash
    have h0 : ¬ index.val = 0 := by omega
    simp only [verifyHeaderWorker, h0, if_false, hhash, if_true]
  · intro hlt hpos hhash
    have h0 : ¬ index.val = 0 := by omega
    simp only [verifyHeaderWorker, h0, if_false, hhash, if_false]

/-- A toy header-hash model for witnesses: number plus time. -/
def wHashFn (hd : Header) : Nat := hd.number.toNat + hd.time

/-- Concrete successor of wParent whose parentHash is wHashFn wParent, for the
C7 witness: in a batch [wParent, wChainedHeader], index 1 resolves its parent
locally. -/
def wChainedHeader : Header :=
  { parentHash := wHashFn wParent, uncleHash := emptyUncleHash, number := 11,
    time := 1001, extra := [], difficulty := some 0, gasLimit := 30000000,
    gasUsed := 0, baseFee := none, root := 0 }

/-- C7 witness: in the concrete batch [wParent, wChainedHeader] with a chain
store that knows no headers, index 1 is verified against the in-batch parent
(the store is never asked). -/
theorem C7_witness :
    verifyHeaderWorker wHashFn (fun _ _ => none) [wParent, wChainedHeader]
      [true, true] ⟨1, by simp⟩ 2000 =
      verifyHeader wChainedHeader wParent true 2000 :=
  (C7_verifyHeaderWorker_parent_resolution wHashFn (fun _ _ => none)
    (fun _ _ => none) [wParent, wChainedHeader] [true, true] ⟨1, by simp⟩
    2000).2.2.1 (by simp) (by decide) (by decide)

/-! ## Transaction and block model -/

/-- Shallow embedding of types.Transaction, keeping the attributes the miner
worker reads.  `size` is the length of rlp.EncodeToBytes(tx) and `encOk`
whether that encoding succeeds; `isProtected` is tx.Protected();  `sender` is
the address recovered by the signer (none when signature recovery fails);
`gasFeeCap` is the big.Int GasFeeCap (hence an unbounded Nat). -/
structure Tx where
  nonce : Nat
  gas : Nat
  gasFeeCap : Nat
  data : List Nat
  isProtected : Bool
  size : Nat
  encOk : Bool
  sender : Option Nat
  deriving Repr, DecidableEq

/-- Shallow embedding of types.Block: the header plus the transaction list
(uncles are always empty in this engine, receipts do not enter block
identity here). -/
structure Block where
  header : Header
  txs : List Tx
  deriving Repr, DecidableEq

/-- types.Block.WithSeal: replace the header of a block. -/
def Block.withSeal (b : Block) (h : Header) : Block := { b with header := h }

/-- WithSeal of a block's own header is the block itself. -/
theorem Block.withSeal_self (b : Block) : b.withSeal b.header = b := rfl

/-! ## Seal (for C6) -/

/-- Embedding of (t *Taiko) Seal (consensus/taiko/consensus.go).  The Go
select statement over the capacity-one results channel is modelled by:
`slotFree` — the results channel has buffer space (its send case is ready);
`stopFired` — the stop channel is closed/signalled (its receive case is
ready); `pickStop` — Go's random choice when both cases are ready.  When
neither case is ready the default branch fires: a warning is logged and
nothing is delivered (the call never blocks).  Returns the error result and
the block published on the results channel, if any. -/
def Seal (block : Block) (slotFree stopFired pickStop : Bool) :
    Option ConsensusError × Option Block :=
  let header := block.header
  if uint64OfInt header.number = 0 then
    (some ConsensusError.invalidNumber, none)
  else if slotFree && stopFired then
    (if pickStop then (none, none) else (none, some (block.withSeal header)))
  else if slotFree then
    (none, some (block.withSeal header))
  else
    (none, none)

/-- A concrete non-genesis block for the Seal witnesses. -/
def wBlock : Block := { header := wChainedHeader, txs := [] }

/-- C6 counterexample: the claim states that for a nonzero block number,
Seal no-ops only when the stop signal has fired.  At the concrete state where
the results channel is full (consumer has not read) and no stop has fired,
Seal publishes nothing — the default select branch no-ops with only a
warning, refuting the claim. -/
theorem C6_counterexample :
    uint64OfInt wBlock.header.number ≠ 0 ∧
    Seal wBlock false false false = (none, none) := by
  constructor
  · decide
  · decide

/-- C6 (amended): for a block whose number (as uint64) is 0, Seal returns the
invalid-number error and publishes nothing; for a nonzero number it returns
nil and publishes the unchanged block exactly when the results channel has
space and the stop case is not selected (stop not fired, or the select tie
resolved towards the send); it no-ops either when the stop signal has fired
and is selected or when the channel is full (then only logging a warning);
being a total function of the channel state, it never blocks. -/
theorem C6_Seal_amended :
    ∀ (block : Block) (slotFree stopFired pickStop : Bool),
      (uint64OfInt block.header.number = 0 →
        Seal block slotFree stopFired pickStop =
          (some ConsensusError.invalidNumber, none)) ∧
      (uint64OfInt block.header.number ≠ 0 →
        (Seal block slotFree stopFired pickStop).1 = none ∧
        ((Seal block slotFree stopFired pickStop).2 = some block ↔
          slotFree = true ∧ (stopFired = false ∨ pickStop = false)) ∧
        ((Seal block slotFree stopFired pickStop).2 = none ∨
          (Seal block slotFree stopFired pickStop).2 = some block)) := by
  intro block slotFree stopFired pickStop
  constructor
  · intro h0
    simp [Seal, h0]
  · intro h0
    cases slotFree <;> cases stopFired <;> cases pickStop <;>
      simp [Seal, h0, Block.withSeal_self]

/-- C6 witness: at the concrete non-genesis block with channel space and no
stop signal, Seal returns nil and publishes the block unchanged. -/
theorem C6_witness :
    (Seal wBlock true false false).1 = none ∧
    (Seal wBlock true false false).2 = some wBlock := by
  have h := (C6_Seal_amended wBlock true false false).2 (by decide)
  exact ⟨h.1, h.2.1.mpr (by simp)⟩

/-! ## Ordered transaction supply (types.TransactionsByPriceAndNonce)

The price-and-nonce iterator is modelled as the list of per-sender entries,
each the sender's current head transaction paired with the sender's remaining
queue, kept ordered by the price comparison `better` (best head first — the
heap of heads).  Peek reads the best head, Shift advances within the head
sender's queue re-inserting the sender by price, Pop discards the head
sender's whole remaining queue. -/

/-- One sender entry of the iterator with its remaining queue. -/
abbrev TxsByPriceAndNonce : Type := List (Tx × List Tx)

/-- Insert a sender entry into the price-ordered entry list (the heap fix-up
after a Shift). -/
def insertByPrice (better : Tx → Tx → Bool) (e : Tx × List Tx) :
    List (Tx × List Tx) → List (Tx × List Tx)
  | [] => [e]
  | f :: rest =>
    if better e.1 f.1 then e :: f :: rest
    else f :: insertByPrice better e rest

/-- TransactionsByPriceAndNonce.Peek: best head transaction, if any. -/
def TxsByPriceAndNonce.peek : TxsByPriceAndNonce → Option Tx
  | [] => none
  | (t, _) :: _ => some t

/-- TransactionsByPriceAndNonce.Shift: replace the head sender's entry by its
next transaction (dropping the sender once its queue is empty). -/
def TxsByPriceAndNonce.shift (better : Tx → Tx → Bool) :
    TxsByPriceAndNonce → TxsByPriceAndNonce
  | [] => []
  | (_, []) :: rest => rest
  | (_, n :: ns) :: rest => insertByPrice better (n, ns) rest

/-- TransactionsByPriceAndNonce.Pop: discard the head sender entirely. -/
def TxsByPriceAndNonce.pop : TxsByPriceAndNonce → TxsByPriceAndNonce
  | [] => []
  | _ :: rest => rest

/-- Weight of one sender entry under a per-transaction weight. -/
def entryWeight (w : Tx → Nat) (e : Tx × List Tx) : Nat :=
  w e.1 + (e.2.map w).sum

/-- Total weight of a supply under a per-transaction weight. -/
def supplyWeight (w : Tx → Nat) (s : TxsByPriceAndNonce) : Nat :=
  (s.map (entryWeight w)).sum

/-- Number of transactions remaining in a supply. -/
def supplySize (s : TxsByPriceAndNonce) : Nat := supplyWeight (fun _ => 1) s

/-- All transactions remaining in a supply, in entry order. -/
def allTxs (s : TxsByPriceAndNonce) : List Tx :=
  s.foldr (fun e acc => e.1 :: e.2 ++ acc) []

theorem supplyWeight_insertByPrice (w : Tx → Nat) (better : Tx → Tx → Bool)
    (e : Tx × List Tx) (l : List (Tx × List Tx)) :
    supplyWeight w (insertByPrice better e l) =
      entryWeight w e + supplyWeight w l := by
  induction l with
  | nil => simp [insertByPrice, supplyWeight]
  | cons f rest ih =>
    unfold insertByPrice
    by_cases h : better e.1 f.1 <;> simp [h, supplyWeight] at ih ⊢ <;> omega

theorem supplyWeight_shift (w : Tx → Nat) (better : Tx → Tx → Bool)
    (s : TxsByPriceAndNonce) (tx : Tx) (h : s.peek = some tx) :
    supplyWeight w (s.shift better) + w tx = supplyWeight w s := by
  match s, h with
  | (t, []) :: rest, h =>
    simp [TxsByPriceAndNonce.peek] at h
    subst h
    simp [TxsByPriceAndNonce.shift, supplyWeight, entryWeight]
    omega
  | (t, n :: ns) :: rest, h =>
    simp [TxsByPriceAndNonce.peek] at h
    subst h
    simp only [TxsByPriceAndNonce.shift]
    rw [supplyWeight_insertByPrice]
    simp [supplyWeight, entryWeight]
    omega

theorem supplyWeight_pop_le (w : Tx → Nat) (s : TxsByPriceAndNonce) :
    supplyWeight w s.pop ≤ supplyWeight w s := by
  match s with
  | [] => simp [TxsByPriceAndNonce.pop]
  | e :: rest => simp [TxsByPriceAndNonce.pop, supplyWeight]

theorem supplySize_pop_lt (s : TxsByPriceAndNonce) (tx : Tx)
    (h : s.peek = some tx) : supplySize s.pop < supplySize s := by
  match s, h with
  | (t, q) :: rest, _ =>
    simp [TxsByPriceAndNonce.pop, supplySize, supplyWeight, entryWeight]

theorem supplySize_shift_lt (better : Tx → Tx → Bool) (s : TxsByPriceAndNonce)
    (tx : Tx) (h : s.peek = some tx) :
    supplySize (s.shift better) < supplySize s := by
  have := supplyWeight_shift (fun _ => 1) better s tx h
  simp [supplySize] at this ⊢
  omega

/-! ## The miner environment and commitL2Transactions -/

/-- Error classes distinguished by the dispatch in commitL2Transactions:
core.ErrGasLimitReached, core.ErrNonceTooLow, core.ErrNonceTooHigh,
types.ErrTxTypeNotSupported, and any other ("strange") error. -/
inductive CommitErr where
  | gasLimitReached
  | nonceTooLow
  | nonceTooHigh
  | txTypeNotSupported
  | other
  deriving Repr, DecidableEq

/-- The miner's per-build environment (miner/payload_building &
taiko_worker): execution state, remaining block gas pool, committed
transaction count, accumulated transactions, and the header under
construction.  The state type σ abstracts the StateDB collaborator. -/
structure Env (σ : Type) where
  state : σ
  gasPool : Nat
  tcount : Nat
  txs : List Tx
  header : Header

/-- Type of the state-transition collaborator w.commitTransaction as observed
by commitL2Transactions: from the current execution state and gas pool,
either an error (state unchanged — the source snapshots and reverts) or the
updated state and gas pool; on success the source also appends the
transaction to env.txs, which the loop below performs. -/
abbrev CommitFn (σ : Type) : Type := σ → Nat → Tx → Except CommitErr (σ × Nat)

/-- Embedding of the `loop` of (w *worker) commitL2Transactions
(miner/taiko_worker.go).  `isEIP155` is w.chainConfig.IsEIP155(header.Number);
`better` the price ordering of the supplies; `accTxListBytes` the running
byte total.  The returned tuple carries the mutated environment, the two
mutated supplies, the allTxsCommitted flag, and the final byte total. -/
def commitLoop {σ : Type} (commitTx : CommitFn σ) (isEIP155 : Bool)
    (better : Tx → Tx → Bool) (maxTransactionsPerBlock maxBytesPerTxList : Nat)
    (env : Env σ) (txsLocal txsRemote : TxsByPriceAndNonce) (isLocal : Bool)
    (accTxListBytes : Nat) :
    Env σ × TxsByPriceAndNonce × TxsByPriceAndNonce × Bool × Nat :=
  if env.gasPool < TxGas then
    (env, txsLocal, txsRemote, false, accTxListBytes)
  else
    match hp : (if isLocal then txsLocal else txsRemote).peek with
    | none =>
      if hl : isLocal then
        commitLoop commitTx isEIP155 better maxTransactionsPerBlock
          maxBytesPerTxList env txsLocal txsRemote false accTxListBytes
      else
        (env, txsLocal, txsRemote, true, accTxListBytes)
    | some tx =>
      if tx.encOk = false then
        commitLoop commitTx isEIP155 better maxTransactionsPerBlock
          maxBytesPerTxList env
          (if isLocal then txsLocal.pop else txsLocal)
          (if isLocal then txsRemote else txsRemote.pop)
          isLocal accTxListBytes
      else if maxBytesPerTxList ≤ accTxListBytes + tx.size then
        (env, txsLocal, txsRemote, false, accTxListBytes)
      else if tx.isProtected && !isEIP155 then
        commitLoop commitTx isEIP155 better maxTransactionsPerBlock
          maxBytesPerTxList env
          (if isLocal then txsLocal.pop else txsLocal)
          (if isLocal then txsRemote else txsRemote.pop)
          isLocal accTxListBytes
      else
        match commitTx env.state env.gasPool tx with
        | .error .gasLimitReached =>
          commitLoop commitTx isEIP155 better maxTransactionsPerBlock
            maxBytesPerTxList env
            (if isLocal then txsLocal.pop else txsLocal)
            (if isLocal then txsRemote else txsRemote.pop)
            isLocal accTxListBytes
        | .error .nonceTooLow =>
          commitLoop commitTx isEIP155 better maxTransactionsPerBlock
            maxBytesPerTxList env
            (if isLocal then txsLocal.shift better else txsLocal)
            (if isLocal then txsRemote else txsRemote.shift better)
            isLocal accTxListBytes
        | .error .nonceTooHigh =>
          commitLoop commitTx isEIP155 better maxTransactionsPerBlock
            maxBytesPerTxList env
            (if isLocal then txsLocal.pop else txsLocal)
            (if isLocal then txsRemote else txsRemote.pop)
            isLocal accTxListBytes
        | .error .txTypeNotSupported =>
          commitLoop commitTx isEIP155 better maxTransactionsPerBlock
            maxBytesPerTxList env
            (if isLocal then txsLocal.pop else txsLocal)
            (if isLocal then txsRemote else txsRemote.pop)
            isLocal accTxListBytes
        | .error .other =>
          commitLoop commitTx isEIP155 better maxTransactionsPerBlock
            maxBytesPerTxList env
            (if isLocal then txsLocal.shift better else txsLocal)
            (if isLocal then txsRemote else txsRemote.shift better)
            isLocal accTxListBytes
        | .ok (st, gp) =>
          let env' : Env σ := { env with
            state := st
            gasPool := gp
            tcount := env.tcount + 1
            txs := env.txs ++ [tx] }
          if maxTransactionsPerBlock ≤ env'.tcount then
            (env', txsLocal, txsRemote, false, accTxListBytes)
          else
            commitLoop commitTx isEIP155 better maxTransactionsPerBlock
              maxBytesPerTxList env'
              (if isLocal then txsLocal.shift better else txsLocal)
              (if isLocal then txsRemote else txsRemote.shift better)
              isLocal (accTxListBytes + tx.size)
termination_by
  supplySize txsLocal + supplySize txsRemote + (if isLocal then 1 else 0)
decreasing_by
  all_goals cases isLocal <;>
    simp_all <;>
    first
      | (have h := supplySize_pop_lt txsLocal tx hp; omega)
      | (have h := supplySize_pop_lt txsRemote tx hp; omega)
      | (have h := supplySize_shift_lt better txsLocal tx hp; omega)
      | (have h := supplySize_shift_lt better txsRemote tx hp; omega)

/-- Proof helper: the body of one commitLoop iteration once a transaction has
been peeked from the current supply (the some-branch of commitLoop, verbatim). -/
def commitStep {σ : Type} (commitTx : CommitFn σ) (isEIP155 : Bool)
    (better : Tx → Tx → Bool) (maxTransactionsPerBlock maxBytesPerTxList : Nat)
    (env : Env σ) (txsLocal txsRemote : TxsByPriceAndNonce) (isLocal : Bool)
    (accTxListBytes : Nat) (tx : Tx) :
    Env σ × TxsByPriceAndNonce × TxsByPriceAndNonce × Bool × Nat :=
  if tx.encOk = false then
    commitLoop commitTx isEIP155 better maxTransactionsPerBlock
      maxBytesPerTxList env
      (if isLocal then txsLocal.pop else txsLocal)
      (if isLocal then txsRemote else txsRemote.pop)
      isLocal accTxListBytes
  else if maxBytesPerTxList ≤ accTxListBytes + tx.size then
    (env, txsLocal, txsRemote, false, accTxListBytes)
  else if tx.isProtected && !isEIP155 then
    commitLoop commitTx isEIP155 better maxTransactionsPerBlock
      maxBytesPerTxList env
      (if isLocal then txsLocal.pop else txsLocal)
      (if isLocal then txsRemote else txsRemote.pop)
      isLocal accTxListBytes
  else
    match commitTx env.state env.gasPool tx with
    | .error .gasLimitReached =>
      commitLoop commitTx isEIP155 better maxTransactionsPerBlock
        maxBytesPerTxList env
        (if isLocal then txsLocal.pop else txsLocal)
        (if isLocal then txsRemote else txsRemote.pop)
        isLocal accTxListBytes
    | .error .nonceTooLow =>
      commitLoop commitTx isEIP155 better maxTransactionsPerBlock
        maxBytesPerTxList env
        (if isLocal then txsLocal.shift better else txsLocal)
        (if isLocal then txsRemote else txsRemote.shift better)
        isLocal accTxListBytes
    | .error .nonceTooHigh =>
      commitLoop commitTx isEIP155 better maxTransactionsPerBlock
        maxBytesPerTxList env
        (if isLocal then txsLocal.pop else txsLocal)
        (if isLocal then txsRemote else txsRemote.pop)
        isLocal accTxListBytes
    | .error .txTypeNotSupported =>
      commitLoop commitTx isEIP155 better maxTransactionsPerBlock
        maxBytesPerTxList env
        (if isLocal then txsLocal.pop else txsLocal)
        (if isLocal then txsRemote else txsRemote.pop)
        isLocal accTxListBytes
    | .error .other =>
      commitLoop commitTx isEIP155 better maxTransactionsPerBlock
        maxBytesPerTxList env
        (if isLocal then txsLocal.shift better else txsLocal)
        (if isLocal then txsRemote else txsRemote.shift better)
        isLocal accTxListBytes
    | .ok (st, gp) =>
      let env' : Env σ := { env with
        state := st
        gasPool := gp
        tcount := env.tcount + 1
        txs := env.txs ++ [tx] }
      if maxTransactionsPerBlock ≤ env'.tcount then
        (env', txsLocal, txsRemote, false, accTxListBytes)
      else
        commitLoop commitTx isEIP155 better maxTransactionsPerBlock
          maxBytesPerTxList env'
          (if isLocal then txsLocal.shift better else txsLocal)
          (if isLocal then txsRemote else txsRemote.shift better)
          isLocal (accTxListBytes + tx.size)

/-- Unfolding commitLoop when gas remains and a transaction is peeked: the
loop performs exactly one commitStep on that transaction. -/
theorem commitLoop_peek_step {σ : Type} (commitTx : CommitFn σ)
    (isEIP155 : Bool) (better : Tx → Tx → Bool) (maxTx maxBytes : Nat)
    (env : Env σ) (txsLocal txsRemote : TxsByPriceAndNonce) (isLocal : Bool)
    (acc : Nat) (tx : Tx) (hgas : ¬ env.gasPool < TxGas)
    (hpeek : (if isLocal then txsLocal else txsRemote).peek = some tx) :
    commitLoop commitTx isEIP155 better maxTx maxBytes env txsLocal txsRemote
        isLocal acc =
      commitStep commitTx isEIP155 better maxTx maxBytes env txsLocal
        txsRemote isLocal acc tx := by
  conv_lhs => rw [commitLoop]
  rw [if_neg hgas]
  split
  · rename_i hp
    rw [hpeek] at hp
    exact absurd hp (by simp)
  · rename_i tx' hp
    rw [hpeek] at hp
    cases hp
    rfl

/-- Embedding of (w *worker) commitL2Transactions (miner/taiko_worker.go):
run the commit loop starting at the local supply with a zero byte total. -/
def commitL2Transactions {σ : Type} (commitTx : CommitFn σ) (isEIP155 : Bool)
    (better : Tx → Tx → Bool) (env : Env σ)
    (txsLocal txsRemote : TxsByPriceAndNonce)
    (maxTransactionsPerBlock maxBytesPerTxList : Nat) :
    Env σ × TxsByPriceAndNonce × TxsByPriceAndNonce × Bool × Nat :=
  commitLoop commitTx isEIP155 better maxTransactionsPerBlock
    maxBytesPerTxList env txsLocal txsRemote true 0

/-- C4: the commit-outcome dispatch of the list-building loop.  With gas
available, a peeked transaction that encodes, fits the byte budget and passes
the replay-protection gate: gas-limit-reached pops the whole sender queue and
continues; nonce-too-low shifts past this transaction only and continues;
nonce-too-high pops and continues; unsupported transaction type pops and
continues; success increments the count, appends the transaction and shifts —
unless the count limit is reached, which stops the loop; any other error
shifts past this transaction only and continues.  No per-transaction fault
terminates the loop: every fault case is a recursive continuation. -/
theorem C4_commitL2Transactions_dispatch :
    ∀ {σ : Type} (commitTx : CommitFn σ) (isEIP155 : Bool)
      (better : Tx → Tx → Bool) (maxTx maxBytes : Nat) (env : Env σ)
      (txsLocal txsRemote : TxsByPriceAndNonce) (isLocal : Bool) (acc : Nat)
      (tx : Tx),
      TxGas ≤ env.gasPool →
      (if isLocal then txsLocal else txsRemote).peek = some tx →
      tx.encOk = true →
      acc + tx.size < maxBytes →
      (tx.isProtected && !isEIP155) = false →
      ((commitTx env.state env.gasPool tx = .error .gasLimitReached →
        commitLoop commitTx isEIP155 better maxTx maxBytes env txsLocal
            txsRemote isLocal acc =
          commitLoop commitTx isEIP155 better maxTx maxBytes env
            (if isLocal then txsLocal.pop else txsLocal)
            (if isLocal then txsRemote else txsRemote.pop) isLocal acc) ∧
      (commitTx env.state env.gasPool tx = .error .nonceTooLow →
        commitLoop commitTx isEIP155 better maxTx maxBytes env txsLocal
            txsRemote isLocal acc =
          commitLoop commitTx isEIP155 better maxTx maxBytes env
            (if isLocal then txsLocal.shift better else txsLocal)
            (if isLocal then txsRemote else txsRemote.shift better)
            isLocal acc) ∧
      (commitTx env.state env.gasPool tx = .error .nonceTooHigh →
        commitLoop commitTx isEIP155 better maxTx maxBytes env txsLocal
            txsRemote isLocal acc =
          commitLoop commitTx isEIP155 better maxTx maxBytes env
            (if isLocal then txsLocal.pop else txsLocal)
            (if isLocal then txsRemote else txsRemote.pop) isLocal acc) ∧
      (commitTx env.state env.gasPool tx = .error .txTypeNotSupported →
        commitLoop commitTx isEIP155 better maxTx maxBytes env txsLocal
            txsRemote isLocal acc =
          commitLoop commitTx isEIP155 better maxTx maxBytes env
            (if isLocal then txsLocal.pop else txsLocal)
            (if isLocal then txsRemote else txsRemote.pop) isLocal acc) ∧
      (commitTx env.state env.gasPool tx = .error .other →
        commitLoop commitTx isEIP155 better maxTx maxBytes env txsLocal
            txsRemote isLocal acc =
          commitLoop commitTx isEIP155 better maxTx maxBytes env
            (if isLocal then txsLocal.shift better else txsLocal)
            (if isLocal then txsRemote else txsRemote.shift better)
            isLocal acc) ∧
      (∀ (st : σ) (gp : Nat), commitTx env.state env.gasPool tx = .ok (st, gp) →
        maxTx ≤ env.tcount + 1 →
        commitLoop commitTx isEIP155 better maxTx maxBytes env txsLocal
            txsRemote isLocal acc =
          ({ env with
             state := st
             gasPool := gp
             tcount := env.tcount + 1
             txs := env.txs ++ [tx] }, txsLocal, txsRemote, false, acc)) ∧
      (∀ (st : σ) (gp : Nat), commitTx env.state env.gasPool tx = .ok (st, gp) →
        env.tcount + 1 < maxTx →
        commitLoop commitTx isEIP155 better maxTx maxBytes env txsLocal
            txsRemote isLocal acc =
          commitLoop commitTx isEIP155 better maxTx maxBytes
            { env with
              state := st
              gasPool := gp
              tcount := env.tcount + 1
              txs := env.txs ++ [tx] }
            (if isLocal then txsLocal.shift better else txsLocal)
            (if isLocal then txsRemote else txsRemote.shift better)
            isLocal (acc + tx.size))) := by
  intro σ commitTx isEIP155 better maxTx maxBytes env txsLocal txsRemote
    isLocal acc tx hgas hpeek henc hbytes hprot
  have hgas' : ¬ env.gasPool < TxGas := Nat.not_lt.mpr hgas
  have hbytes' : ¬ maxBytes ≤ acc + tx.size := Nat.not_le.mpr hbytes
  have hstep := commitLoop_peek_step commitTx isEIP155 better maxTx maxBytes
    env txsLocal txsRemote isLocal acc tx hgas' hpeek
  refine ⟨?_, ?_, ?_, ?_, ?_, ?_, ?_⟩
  · intro hc
    rw [hstep]
    simp [commitStep, henc, hbytes', hprot, hc]
  · intro hc
    rw [hstep]
    simp [commitStep, henc, hbytes', hprot, hc]
  · intro hc
    rw [hstep]
    simp [commitStep, henc, hbytes', hprot, hc]
  · intro hc
    rw [hstep]
    simp [commitStep, henc, hbytes', hprot, hc]
  · intro hc
    rw [hstep]
    simp [commitStep, henc, hbytes', hprot, hc]
  · intro st gp hc hcount
    rw [hstep]
    simp [commitStep, henc, hbytes', hprot, hc, hcount]
  · intro st gp hc hcount
    rw [hstep]
    simp [commitStep, henc, hbytes', hprot, hc, Nat.not_le.mpr hcount]

/-- Unfolding commitLoop when the gas pool is below the minimal transaction
cost: the loop stops, not fully drained. -/
theorem commitLoop_gas_break {σ : Type} (commitTx : CommitFn σ)
    (isEIP155 : Bool) (better : Tx → Tx → Bool) (maxTx maxBytes : Nat)
    (env : Env σ) (txsLocal txsRemote : TxsByPriceAndNonce) (isLocal : Bool)
    (acc : Nat) (hgas : env.gasPool < TxGas) :
    commitLoop commitTx isEIP155 better maxTx maxBytes env txsLocal txsRemote
        isLocal acc = (env, txsLocal, txsRemote, false, acc) := by
  rw [commitLoop, if_pos hgas]

/-- Unfolding commitLoop when gas remains but the current supply is empty:
switch from local to remote, or stop fully drained. -/
theorem commitLoop_peek_none {σ : Type} (commitTx : CommitFn σ)
    (isEIP155 : Bool) (better : Tx → Tx → Bool) (maxTx maxBytes : Nat)
    (env : Env σ) (txsLocal txsRemote : TxsByPriceAndNonce) (isLocal : Bool)
    (acc : Nat) (hgas : ¬ env.gasPool < TxGas)
    (hpeek : (if isLocal then txsLocal else txsRemote).peek = none) :
    commitLoop commitTx isEIP155 better maxTx maxBytes env txsLocal txsRemote
        isLocal acc =
      if isLocal then
        commitLoop commitTx isEIP155 better maxTx maxBytes env txsLocal
          txsRemote false acc
      else (env, txsLocal, txsRemote, true, acc) := by
  conv_lhs => rw [commitLoop]
  rw [if_neg hgas]
  split
  · rfl
  · rename_i tx' hp
    rw [hpeek] at hp
    exact absurd hp (by simp)

/-- Total serialized byte size of a transaction list. -/
def sumSize (l : List Tx) : Nat := (l.map Tx.size).sum

/-- Invariant of the commit loop: starting from a byte total that accounts
for the committed list and a count below the (positive-adjusted) ceiling, the
resulting committed list respects both ceilings — at most max(maxTx, 1)
transactions, and a byte total strictly below maxBytes unless nothing was
committed. -/
theorem commitLoop_bounds {σ : Type} (commitTx : CommitFn σ) (isEIP155 : Bool)
    (better : Tx → Tx → Bool) (maxTx maxBytes : Nat) (env : Env σ)
    (txsLocal txsRemote : TxsByPriceAndNonce) (isLocal : Bool) (acc : Nat)
    (hacc : acc = sumSize env.txs) (hcnt : env.tcount = env.txs.length)
    (hbnd : env.txs = [] ∨ acc < maxBytes) (htc : env.tcount < max maxTx 1) :
    (commitLoop commitTx isEIP155 better maxTx maxBytes env txsLocal txsRemote
        isLocal acc).1.txs.length ≤ max maxTx 1 ∧
    ((commitLoop commitTx isEIP155 better maxTx maxBytes env txsLocal
        txsRemote isLocal acc).1.txs = [] ∨
      sumSize (commitLoop commitTx isEIP155 better maxTx maxBytes env txsLocal
        txsRemote isLocal acc).1.txs < maxBytes) := by
  revert hacc hcnt hbnd htc
  induction env, txsLocal, txsRemote, isLocal, acc using commitLoop.induct
    commitTx isEIP155 better maxTx maxBytes with
  | case1 env txsLocal txsRemote isLocal acc hgas =>
    intro hacc hcnt hbnd htc
    rw [commitLoop_gas_break commitTx isEIP155 better maxTx maxBytes env
      txsLocal txsRemote isLocal acc hgas]
    exact ⟨by simpa [hcnt.symm] using Nat.le_of_lt htc,
      by simpa [hacc.symm] using hbnd⟩
  | case2 env txsLocal txsRemote acc hgas hpeek ih =>
    intro hacc hcnt hbnd htc
    rw [commitLoop_peek_none commitTx isEIP155 better maxTx maxBytes env
      txsLocal txsRemote true acc hgas (by simpa using hpeek)]
    simpa using ih hacc hcnt hbnd htc
  | case3 env txsLocal txsRemote isLocal acc hgas hpeek hnl =>
    intro hacc hcnt hbnd htc
    rw [commitLoop_peek_none commitTx isEIP155 better maxTx maxBytes env
      txsLocal txsRemote isLocal acc hgas hpeek]
    have hil : isLocal = false := by simpa using hnl
    subst hil
    exact ⟨by simpa [hcnt.symm] using Nat.le_of_lt htc,
      by simpa [hacc.symm] using hbnd⟩
  | case4 env txsLocal txsRemote isLocal acc hgas tx hpeek henc ih =>
    intro hacc hcnt hbnd htc
    rw [commitLoop_peek_step commitTx isEIP155 better maxTx maxBytes env
      txsLocal txsRemote isLocal acc tx hgas hpeek]
    simp only [commitStep, henc, if_true]
    simpa using ih hacc hcnt hbnd htc
  | case5 env txsLocal txsRemote isLocal acc hgas tx hpeek henc hbytes =>
    intro hacc hcnt hbnd htc
    rw [commitLoop_peek_step commitTx isEIP155 better maxTx maxBytes env
      txsLocal txsRemote isLocal acc tx hgas hpeek]
    simp only [commitStep, henc, if_false, if_pos hbytes]
    exact ⟨by simpa [hcnt.symm] using Nat.le_of_lt htc,
      by simpa [hacc.symm] using hbnd⟩
  | case6 env txsLocal txsRemote isLocal acc hgas tx hpeek henc hbytes hprot ih =>
    intro hacc hcnt hbnd htc
    rw [commitLoop_peek_step commitTx isEIP155 better maxTx maxBytes env
      txsLocal txsRemote isLocal acc tx hgas hpeek]
    simp only [commitStep, henc, if_false, if_neg hbytes, hprot, if_true]
    simpa using ih hacc hcnt hbnd htc
  | case7 env txsLocal txsRemote isLocal acc hgas tx hpeek henc hbytes hprot hc ih =>
    intro hacc hcnt hbnd htc
    rw [commitLoop_peek_step commitTx isEIP155 better maxTx maxBytes env
      txsLocal txsRemote isLocal acc tx hgas hpeek]
    simp only [commitStep, henc, if_false, if_neg hbytes, if_neg hprot, hc]
    simpa using ih hacc hcnt hbnd htc
  | case8 env txsLocal txsRemote isLocal acc hgas tx hpeek henc hbytes hprot hc ih =>
    intro hacc hcnt hbnd htc
    rw [commitLoop_peek_step commitTx isEIP155 better maxTx maxBytes env
      txsLocal txsRemote isLocal acc tx hgas hpeek]
    simp only [commitStep, henc, if_false, if_neg hbytes, if_neg hprot, hc]
    simpa using ih hacc hcnt hbnd htc
  | case9 env txsLocal txsRemote isLocal acc hgas tx hpeek henc hbytes hprot hc ih =>
    intro hacc hcnt hbnd htc
    rw [commitLoop_peek_step commitTx isEIP155 better maxTx maxBytes env
      txsLocal txsRemote isLocal acc tx hgas hpeek]
    simp only [commitStep, henc, if_false, if_neg hbytes, if_neg hprot, hc]
    simpa using ih hacc hcnt hbnd htc
  | case10 env txsLocal txsRemote isLocal acc hgas tx hpeek henc hbytes hprot hc ih =>
    intro hacc hcnt hbnd htc
    rw [commitLoop_peek_step commitTx isEIP155 better maxTx maxBytes env
      txsLocal txsRemote isLocal acc tx hgas hpeek]
    simp only [commitStep, henc, if_false, if_neg hbytes, if_neg hprot, hc]
    simpa using ih hacc hcnt hbnd htc
  | case11 env txsLocal txsRemote isLocal acc hgas tx hpeek henc hbytes hprot hc ih =>
    intro hacc hcnt hbnd htc
    rw [commitLoop_peek_step commitTx isEIP155 better maxTx maxBytes env
      txsLocal txsRemote isLocal acc tx hgas hpeek]
    simp only [commitStep, henc, if_false, if_neg hbytes, if_neg hprot, hc]
    simpa using ih hacc hcnt hbnd htc
  | case12 env txsLocal txsRemote isLocal acc hgas tx hpeek henc hbytes hprot st gp hc envP hcount =>
    intro hacc hcnt hbnd htc
    have henvP : envP = { env with state := st, gasPool := gp, tcount := env.tcount + 1, txs := env.txs ++ [tx] } := rfl
    rw [henvP] at hcount
    have hcount' : maxTx ≤ env.tcount + 1 := by simpa using hcount
    rw [commitLoop_peek_step commitTx isEIP155 better maxTx maxBytes env
      txsLocal txsRemote isLocal acc tx hgas hpeek]
    simp only [commitStep, henc, if_false, if_neg hbytes, if_neg hprot, hc]
    rw [if_pos hcount']
    refine ⟨?_, Or.inr ?_⟩
    · show (env.txs ++ [tx]).length ≤ max maxTx 1
      simp only [List.length_append, List.length_cons, List.length_nil]
      omega
    · show sumSize (env.txs ++ [tx]) < maxBytes
      have : sumSize (env.txs ++ [tx]) = sumSize env.txs + tx.size := by
        simp [sumSize]
      simp only [this]
      omega
  | case13 env txsLocal txsRemote isLocal acc hgas tx hpeek henc hbytes hprot st gp hc envP hcount ih =>
    intro hacc hcnt hbnd htc
    have henvP : envP = { env with state := st, gasPool := gp, tcount := env.tcount + 1, txs := env.txs ++ [tx] } := rfl
    rw [henvP] at hcount
    have hcount' : ¬ maxTx ≤ env.tcount + 1 := by simpa using hcount
    rw [commitLoop_peek_step commitTx isEIP155 better maxTx maxBytes env
      txsLocal txsRemote isLocal acc tx hgas hpeek]
    simp only [commitStep, henc, if_false, if_neg hbytes, if_neg hprot, hc]
    rw [if_neg hcount']
    rw [henvP] at ih
    have hsum : sumSize (env.txs ++ [tx]) = sumSize env.txs + tx.size := by
      simp [sumSize]
    have h1 : acc + tx.size = sumSize (env.txs ++ [tx]) := by omega
    have h2 : env.tcount + 1 = (env.txs ++ [tx]).length := by
      simp only [List.length_append, List.length_cons, List.length_nil]
      omega
    have h3 : env.txs ++ [tx] = [] ∨ acc + tx.size < maxBytes := Or.inr (by omega)
    have h4 : env.tcount + 1 < max maxTx 1 := by omega
    simpa using ih h1 h2 h3 h4

/-- A concrete transaction (sender 1, nonce 0) for witnesses. -/
def wTxA : Tx :=
  { nonce := 0, gas := 21000, gasFeeCap := 2, data := [1], isProtected := false,
    size := 10, encOk := true, sender := some 1 }

/-- A concrete transaction (sender 1, nonce 1) for witnesses. -/
def wTxB : Tx :=
  { nonce := 1, gas := 21000, gasFeeCap := 2, data := [1], isProtected := false,
    size := 10, encOk := true, sender := some 1 }

/-- A concrete state-transition collaborator over the trivial state, rejecting
nonce 0 with nonce-too-low, for the C4 witness. -/
def wCommitNonceLow : CommitFn Unit := fun _ _ t =>
  if t.nonce = 0 then .error .nonceTooLow else .ok ((), 0)

/-- A concrete miner environment over the trivial state. -/
def wEnvUnit : Env Unit :=
  { state := (), gasPool := 100000, tcount := 0, txs := [], header := wParent }

/-- A concrete state-transition collaborator over the trivial state that
commits every transaction, charging the minimal gas cost. -/
def wCommitAlwaysOk : CommitFn Unit := fun _ gp _ => .ok ((), gp - 21000)

/-- C2 (amended): one invocation of the list builder starting from a reset
environment (count zero, empty list) satisfies: at most max(maxTxCount, 1)
transactions are committed (so at most maxTxCount whenever maxTxCount ≥ 1;
with maxTxCount = 0 a single transaction can still be committed, since the
count check runs only after a commit); and the total serialized size of the
committed transactions — including one whose commit triggers the count-limit
stop — is strictly below maxBytes whenever maxBytes ≥ 1 (the byte check
accumulated + candidate ≥ maxBytes runs before each commit; with maxBytes = 0
the empty list's total 0 is not strictly below the bound). -/
theorem C2_commitL2Transactions_limits :
    ∀ {σ : Type} (commitTx : CommitFn σ) (isEIP155 : Bool)
      (better : Tx → Tx → Bool) (env : Env σ)
      (txsLocal txsRemote : TxsByPriceAndNonce) (maxTx maxBytes : Nat),
      env.tcount = 0 → env.txs = [] →
      ((commitL2Transactions commitTx isEIP155 better env txsLocal txsRemote
          maxTx maxBytes).1.txs.length ≤ max maxTx 1 ∧
       ((commitL2Transactions commitTx isEIP155 better env txsLocal txsRemote
          maxTx maxBytes).1.txs = [] ∨
        sumSize (commitL2Transactions commitTx isEIP155 better env txsLocal
          txsRemote maxTx maxBytes).1.txs < maxBytes) ∧
       (1 ≤ maxTx →
        (commitL2Transactions commitTx isEIP155 better env txsLocal txsRemote
          maxTx maxBytes).1.txs.length ≤ maxTx) ∧
       (1 ≤ maxBytes →
        sumSize (commitL2Transactions commitTx isEIP155 better env txsLocal
          txsRemote maxTx maxBytes).1.txs < maxBytes)) := by
  intro σ commitTx isEIP155 better env txsLocal txsRemote maxTx maxBytes
    hcnt0 htxs0
  have hb := commitLoop_bounds commitTx isEIP155 better maxTx maxBytes env
    txsLocal txsRemote true 0 (by simp [htxs0, sumSize])
    (by simp [hcnt0, htxs0]) (Or.inl htxs0) (by omega)
  rw [commitL2Transactions]
  refine ⟨hb.1, hb.2, ?_, ?_⟩
  · intro hmx
    have : max maxTx 1 = maxTx := by omega
    omega
  · intro hmb
    rcases hb.2 with h | h
    · simp [h, sumSize]
      omega
    · exact h

/-- C2 counterexample: the claim's count ceiling fails at maxTxCount = 0.
With a supply holding one committable transaction and maxTxCount = 0,
commitL2Transactions still commits that transaction (the count check runs
only after a successful commit), so the committed count 1 exceeds the
ceiling 0. -/
theorem C2_counterexample :
    (commitL2Transactions wCommitAlwaysOk true (fun _ _ => true) wEnvUnit
      [(wTxA, [])] [] 0 1000).1.txs.length = 1 ∧
    ¬ ((commitL2Transactions wCommitAlwaysOk true (fun _ _ => true) wEnvUnit
      [(wTxA, [])] [] 0 1000).1.txs.length ≤ 0) := by
  have : (commitL2Transactions wCommitAlwaysOk true (fun _ _ => true) wEnvUnit
      [(wTxA, [])] [] 0 1000).1.txs = [wTxA] := by
    simp [commitL2Transactions, commitLoop, TxsByPriceAndNonce.peek, TxGas,
      wEnvUnit, wTxA, wCommitAlwaysOk]
  simp [this]

/-- C2 witness: the amended bounds at a concrete run with maxTxCount = 5 and
maxBytes = 1000 over a two-transaction supply. -/
theorem C2_witness :
    (commitL2Transactions wCommitAlwaysOk true (fun _ _ => true) wEnvUnit
        [(wTxA, [wTxB])] [] 5 1000).1.txs.length ≤ max 5 1 ∧
    ((commitL2Transactions wCommitAlwaysOk true (fun _ _ => true) wEnvUnit
        [(wTxA, [wTxB])] [] 5 1000).1.txs = [] ∨
      sumSize (commitL2Transactions wCommitAlwaysOk true (fun _ _ => true)
        wEnvUnit [(wTxA, [wTxB])] [] 5 1000).1.txs < 1000) ∧
    (1 ≤ 5 →
      (commitL2Transactions wCommitAlwaysOk true (fun _ _ => true) wEnvUnit
        [(wTxA, [wTxB])] [] 5 1000).1.txs.length ≤ 5) ∧
    (1 ≤ 1000 →
      sumSize (commitL2Transactions wCommitAlwaysOk true (fun _ _ => true)
        wEnvUnit [(wTxA, [wTxB])] [] 5 1000).1.txs < 1000) :=
  C2_commitL2Transactions_limits wCommitAlwaysOk true (fun _ _ => true)
    wEnvUnit [(wTxA, [wTxB])] [] 5 1000 rfl rfl

/-- C4 witness: at the concrete supply whose head gets nonce-too-low, the
loop continues after shifting past just that transaction. -/
theorem C4_witness :
    commitLoop wCommitNonceLow true (fun _ _ => true) 5 1000 wEnvUnit
      [(wTxA, [wTxB])] [] true 0 =
    commitLoop wCommitNonceLow true (fun _ _ => true) 5 1000 wEnvUnit
      (if true then TxsByPriceAndNonce.shift (fun _ _ => true) [(wTxA, [wTxB])]
       else [(wTxA, [wTxB])])
      (if true then [] else TxsByPriceAndNonce.shift (fun _ _ => true) [])
      true 0 :=
  ((C4_commitL2Transactions_dispatch wCommitNonceLow true (fun _ _ => true)
      5 1000 wEnvUnit [(wTxA, [wTxB])] [] true 0 wTxA (by decide) (by decide)
      (by decide) (by decide) (by decide)).2.1) rfl

/-! ## Supply membership lemmas (for the multi-list round) -/

theorem mem_allTxs_insertByPrice (better : Tx → Tx → Bool) (e : Tx × List Tx)
    (l : List (Tx × List Tx)) (t : Tx) :
    t ∈ allTxs (insertByPrice better e l) ↔
      t = e.1 ∨ t ∈ e.2 ∨ t ∈ allTxs l := by
  induction l with
  | nil => simp [insertByPrice, allTxs]
  | cons f rest ih =>
    unfold insertByPrice
    by_cases h : better e.1 f.1 <;> simp [h, allTxs] at ih ⊢ <;> tauto

theorem mem_allTxs_pop (s : TxsByPriceAndNonce) (t : Tx)
    (h : t ∈ allTxs s.pop) : t ∈ allTxs s := by
  match s with
  | [] => exact h
  | e :: rest =>
    simp [TxsByPriceAndNonce.pop] at h
    simp [allTxs]
    tauto

theorem mem_allTxs_shift (better : Tx → Tx → Bool) (s : TxsByPriceAndNonce)
    (t : Tx) (h : t ∈ allTxs (s.shift better)) : t ∈ allTxs s := by
  match s with
  | [] => exact h
  | (x, []) :: rest =>
    simp [TxsByPriceAndNonce.shift] at h
    simp [allTxs]
    tauto
  | (x, n :: ns) :: rest =>
    simp only [TxsByPriceAndNonce.shift] at h
    rw [show allTxs (insertByPrice better (n, ns) rest) =
        allTxs (insertByPrice better (n, ns) rest) from rfl] at h
    have := (mem_allTxs_insertByPrice better (n, ns) rest t).mp h
    simp [allTxs] at this ⊢
    tauto

theorem peek_mem_allTxs (s : TxsByPriceAndNonce) (t : Tx)
    (h : s.peek = some t) : t ∈ allTxs s := by
  match s, h with
  | (x, q) :: rest, h =>
    simp [TxsByPriceAndNonce.peek] at h
    subst h
    simp [allTxs]

/-! ## Spec-modelled state transition and the nonce argument (for C8) -/

/-- Modelled from the spec: the state-transition collaborator behind
w.commitTransaction (core.ApplyTransaction and the StateDB), which is not
among this repository's sources.  Following the spec's account model and
error taxonomy (spec 4.3 and 7): the execution state is the per-sender
account nonce map; a transaction commits exactly when its sender is
recoverable, the gas pool covers its gas limit, and its nonce equals the
sender's current nonce; success consumes the gas and increments the sender's
nonce; a lower/higher nonce yields nonce-too-low/nonce-too-high; an
unrecoverable sender is a strange error. -/
def applyTransaction : CommitFn (Nat → Nat) := fun st gp tx =>
  match tx.sender with
  | none => .error .other
  | some s =>
    if gp < tx.gas then .error .gasLimitReached
    else if tx.nonce < st s then .error .nonceTooLow
    else if st s < tx.nonce then .error .nonceTooHigh
    else .ok (fun a => if a = s then st s + 1 else st a, gp - tx.gas)

theorem applyTransaction_ok {st : Nat → Nat} {gp : Nat} {tx : Tx}
    {st' : Nat → Nat} {gp' : Nat}
    (h : applyTransaction st gp tx = .ok (st', gp')) :
    ∃ s, tx.sender = some s ∧ tx.nonce = st s ∧
      (∀ a, st a ≤ st' a) ∧ st' s = st s + 1 := by
  unfold applyTransaction at h
  split at h
  · exact absurd h (by simp)
  · rename_i s hs
    split at h
    · exact absurd h (by simp)
    · split at h
      · exact absurd h (by simp)
      · split at h
        · exact absurd h (by simp)
        · rename_i hgas hlow hhigh
          simp only [Except.ok.injEq, Prod.mk.injEq] at h
          refine ⟨s, hs, by omega, ?_, ?_⟩
          · intro a
            rw [← h.1]
            by_cases ha : a = s <;> simp [ha]
          · rw [← h.1]
            simp

/-- Membership in the transactions of an if-selected supply is membership in
the corresponding base supply. -/
theorem allTxs_ite_subset {b : Bool} {x y base : TxsByPriceAndNonce}
    (hx : ∀ t ∈ allTxs x, t ∈ allTxs base)
    (hy : ∀ t ∈ allTxs y, t ∈ allTxs base) :
    ∀ t ∈ allTxs (if b then x else y), t ∈ allTxs base := by
  cases b
  · simpa using hy
  · simpa using hx

/-- Invariant of the commit loop under the spec-modelled state transition
applyTransaction: relative to a ghost list `prev` of transactions committed
by earlier attempts, (i) every committed transaction names a sender whose
account nonce has moved strictly past the transaction's nonce, (ii) the
global committed list prev ++ txs stays duplicate-free, (iii) account nonces
only grow, (iv) newly committed transactions originate in the environment's
list or the supplies, and (v, vi) the supplies only shrink. -/
theorem commitLoop_nonce_inv (isEIP155 : Bool) (better : Tx → Tx → Bool)
    (maxTx maxBytes : Nat) (env : Env (Nat → Nat))
    (txsLocal txsRemote : TxsByPriceAndNonce) (isLocal : Bool) (acc : Nat)
    (prev : List Tx)
    (hI1 : ∀ t ∈ prev ++ env.txs, ∃ s, t.sender = some s ∧
      t.nonce < env.state s)
    (hI2 : (prev ++ env.txs).Nodup) :
    (∀ t ∈ prev ++ (commitLoop applyTransaction isEIP155 better maxTx maxBytes
        env txsLocal txsRemote isLocal acc).1.txs,
      ∃ s, t.sender = some s ∧ t.nonce <
        (commitLoop applyTransaction isEIP155 better maxTx maxBytes env
          txsLocal txsRemote isLocal acc).1.state s) ∧
    (prev ++ (commitLoop applyTransaction isEIP155 better maxTx maxBytes env
        txsLocal txsRemote isLocal acc).1.txs).Nodup ∧
    (∀ a, env.state a ≤ (commitLoop applyTransaction isEIP155 better maxTx
        maxBytes env txsLocal txsRemote isLocal acc).1.state a) ∧
    (∀ t ∈ (commitLoop applyTransaction isEIP155 better maxTx maxBytes env
        txsLocal txsRemote isLocal acc).1.txs,
      t ∈ env.txs ∨ t ∈ allTxs txsLocal ∨ t ∈ allTxs txsRemote) ∧
    (∀ t ∈ allTxs (commitLoop applyTransaction isEIP155 better maxTx maxBytes
        env txsLocal txsRemote isLocal acc).2.1, t ∈ allTxs txsLocal) ∧
    (∀ t ∈ allTxs (commitLoop applyTransaction isEIP155 better maxTx maxBytes
        env txsLocal txsRemote isLocal acc).2.2.1, t ∈ allTxs txsRemote) := by
  revert hI1 hI2
  induction env, txsLocal, txsRemote, isLocal, acc using commitLoop.induct
    applyTransaction isEIP155 better maxTx maxBytes with
  | case1 env txsLocal txsRemote isLocal acc hgas =>
    intro hI1 hI2
    rw [commitLoop_gas_break applyTransaction isEIP155 better maxTx maxBytes
      env txsLocal txsRemote isLocal acc hgas]
    exact ⟨hI1, hI2, fun a => le_refl _, fun t ht => Or.inl ht,
      fun t ht => ht, fun t ht => ht⟩
  | case2 env txsLocal txsRemote acc hgas hpeek ih =>
    intro hI1 hI2
    rw [commitLoop_peek_none applyTransaction isEIP155 better maxTx maxBytes
      env txsLocal txsRemote true acc hgas (by simpa using hpeek)]
    simpa using ih hI1 hI2
  | case3 env txsLocal txsRemote isLocal acc hgas hpeek hnl =>
    intro hI1 hI2
    rw [commitLoop_peek_none applyTransaction isEIP155 better maxTx maxBytes
      env txsLocal txsRemote isLocal acc hgas hpeek]
    have hil : isLocal = false := by simpa using hnl
    subst hil
    exact ⟨hI1, hI2, fun a => le_refl _, fun t ht => Or.inl ht,
      fun t ht => ht, fun t ht => ht⟩
  | case4 env txsLocal txsRemote isLocal acc hgas tx hpeek henc ih =>
    intro hI1 hI2
    rw [commitLoop_peek_step applyTransaction isEIP155 better maxTx maxBytes
      env txsLocal txsRemote isLocal acc tx hgas hpeek]
    simp only [commitStep, henc, if_true]
    have ih' := ih hI1 hI2
    simp only [dite_eq_ite] at ih'
    refine ⟨ih'.1, ih'.2.1, ih'.2.2.1, ?_, ?_, ?_⟩
    · intro t ht
      rcases ih'.2.2.2.1 t ht with h | h | h
      · exact Or.inl h
      · exact Or.inr (Or.inl (allTxs_ite_subset
          (fun u hu => mem_allTxs_pop _ u hu) (fun u hu => hu) t h))
      · exact Or.inr (Or.inr (allTxs_ite_subset
          (fun u hu => hu) (fun u hu => mem_allTxs_pop _ u hu) t h))
    · intro t ht
      exact allTxs_ite_subset (fun u hu => mem_allTxs_pop _ u hu)
        (fun u hu => hu) t (ih'.2.2.2.2.1 t ht)
    · intro t ht
      exact allTxs_ite_subset (fun u hu => hu)
        (fun u hu => mem_allTxs_pop _ u hu) t (ih'.2.2.2.2.2 t ht)
  | case5 env txsLocal txsRemote isLocal acc hgas tx hpeek henc hbytes =>
    intro hI1 hI2
    rw [commitLoop_peek_step applyTransaction isEIP155 better maxTx maxBytes
      env txsLocal txsRemote isLocal acc tx hgas hpeek]
    simp only [commitStep, henc, if_false, if_pos hbytes]
    exact ⟨hI1, hI2, fun a => le_refl _, fun t ht => Or.inl ht,
      fun t ht => ht, fun t ht => ht⟩
  | case6 env txsLocal txsRemote isLocal acc hgas tx hpeek henc hbytes hprot ih =>
    intro hI1 hI2
    rw [commitLoop_peek_step applyTransaction isEIP155 better maxTx maxBytes
      env txsLocal txsRemote isLocal acc tx hgas hpeek]
    simp only [commitStep, henc, if_false, if_neg hbytes, hprot, if_true]
    have ih' := ih hI1 hI2
    simp only [dite_eq_ite] at ih'
    refine ⟨ih'.1, ih'.2.1, ih'.2.2.1, ?_, ?_, ?_⟩
    · intro t ht
      rcases ih'.2.2.2.1 t ht with h | h | h
      · exact Or.inl h
      · exact Or.inr (Or.inl (allTxs_ite_subset
          (fun u hu => mem_allTxs_pop _ u hu) (fun u hu => hu) t h))
      · exact Or.inr (Or.inr (allTxs_ite_subset
          (fun u hu => hu) (fun u hu => mem_allTxs_pop _ u hu) t h))
    · intro t ht
      exact allTxs_ite_subset (fun u hu => mem_allTxs_pop _ u hu)
        (fun u hu => hu) t (ih'.2.2.2.2.1 t ht)
    · intro t ht
      exact allTxs_ite_subset (fun u hu => hu)
        (fun u hu => mem_allTxs_pop _ u hu) t (ih'.2.2.2.2.2 t ht)
  | case7 env txsLocal txsRemote isLocal acc hgas tx hpeek henc hbytes hprot hc ih =>
    intro hI1 hI2
    rw [commitLoop_peek_step applyTransaction isEIP155 better maxTx maxBytes
      env txsLocal txsRemote isLocal acc tx hgas hpeek]
    simp only [commitStep, henc, if_false, if_neg hbytes, if_neg hprot, hc]
    have ih' := ih hI1 hI2
    simp only [dite_eq_ite] at ih'
    refine ⟨ih'.1, ih'.2.1, ih'.2.2.1, ?_, ?_, ?_⟩
    · intro t ht
      rcases ih'.2.2.2.1 t ht with h | h | h
      · exact Or.inl h
      · exact Or.inr (Or.inl (allTxs_ite_subset
          (fun u hu => mem_allTxs_pop _ u hu) (fun u hu => hu) t h))
      · exact Or.inr (Or.inr (allTxs_ite_subset
          (fun u hu => hu) (fun u hu => mem_allTxs_pop _ u hu) t h))
    · intro t ht
      exact allTxs_ite_subset (fun u hu => mem_allTxs_pop _ u hu)
        (fun u hu => hu) t (ih'.2.2.2.2.1 t ht)
    · intro t ht
      exact allTxs_ite_subset (fun u hu => hu)
        (fun u hu => mem_allTxs_pop _ u hu) t (ih'.2.2.2.2.2 t ht)
  | case8 env txsLocal txsRemote isLocal acc hgas tx hpeek henc hbytes hprot hc ih =>
    intro hI1 hI2
    rw [commitLoop_peek_step applyTransaction isEIP155 better maxTx maxBytes
      env txsLocal txsRemote isLocal acc tx hgas hpeek]
    simp only [commitStep, henc, if_false, if_neg hbytes, if_neg hprot, hc]
    have ih' := ih hI1 hI2
    simp only [dite_eq_ite] at ih'
    refine ⟨ih'.1, ih'.2.1, ih'.2.2.1, ?_, ?_, ?_⟩
    · intro t ht
      rcases ih'.2.2.2.1 t ht with h | h | h
      · exact Or.inl h
      · exact Or.inr (Or.inl (allTxs_ite_subset
          (fun u hu => mem_allTxs_shift better _ u hu) (fun u hu => hu) t h))
      · exact Or.inr (Or.inr (allTxs_ite_subset
          (fun u hu => hu) (fun u hu => mem_allTxs_shift better _ u hu) t h))
    · intro t ht
      exact allTxs_ite_subset (fun u hu => mem_allTxs_shift better _ u hu)
        (fun u hu => hu) t (ih'.2.2.2.2.1 t ht)
    · intro t ht
      exact allTxs_ite_subset (fun u hu => hu)
        (fun u hu => mem_allTxs_shift better _ u hu) t (ih'.2.2.2.2.2 t ht)
  | case9 env txsLocal txsRemote isLocal acc hgas tx hpeek henc hbytes hprot hc ih =>
    intro hI1 hI2
    rw [commitLoop_peek_step applyTransaction isEIP155 better maxTx maxBytes
      env txsLocal txsRemote isLocal acc tx hgas hpeek]
    simp only [commitStep, henc, if_false, if_neg hbytes, if_neg hprot, hc]
    have ih' := ih hI1 hI2
    simp only [dite_eq_ite] at ih'
    refine ⟨ih'.1, ih'.2.1, ih'.2.2.1, ?_, ?_, ?_⟩
    · intro t ht
      rcases ih'.2.2.2.1 t ht with h | h | h
      · exact Or.inl h
      · exact Or.inr (Or.inl (allTxs_ite_subset
          (fun u hu => mem_allTxs_pop _ u hu) (fun u hu => hu) t h))
      · exact Or.inr (Or.inr (allTxs_ite_subset
          (fun u hu => hu) (fun u hu => mem_allTxs_pop _ u hu) t h))
    · intro t ht
      exact allTxs_ite_subset (fun u hu => mem_allTxs_pop _ u hu)
        (fun u hu => hu) t (ih'.2.2.2.2.1 t ht)
    · intro t ht
      exact allTxs_ite_subset (fun u hu => hu)
        (fun u hu => mem_allTxs_pop _ u hu) t (ih'.2.2.2.2.2 t ht)
  | case10 env txsLocal txsRemote isLocal acc hgas tx hpeek henc hbytes hprot hc ih =>
    intro hI1 hI2
    rw [commitLoop_peek_step applyTransaction isEIP155 better maxTx maxBytes
      env txsLocal txsRemote isLocal acc tx hgas hpeek]
    simp only [commitStep, henc, if_false, if_neg hbytes, if_neg hprot, hc]
    have ih' := ih hI1 hI2
    simp only [dite_eq_ite] at ih'
    refine ⟨ih'.1, ih'.2.1, ih'.2.2.1, ?_, ?_, ?_⟩
    · intro t ht
      rcases ih'.2.2.2.1 t ht with h | h | h
      · exact Or.inl h
      · exact Or.inr (Or.inl (allTxs_ite_subset
          (fun u hu => mem_allTxs_pop _ u hu) (fun u hu => hu) t h))
      · exact Or.inr (Or.inr (allTxs_ite_subset
          (fun u hu => hu) (fun u hu => mem_allTxs_pop _ u hu) t h))
    · intro t ht
      exact allTxs_ite_subset (fun u hu => mem_allTxs_pop _ u hu)
        (fun u hu => hu) t (ih'.2.2.2.2.1 t ht)
    · intro t ht
      exact allTxs_ite_subset (fun u hu => hu)
        (fun u hu => mem_allTxs_pop _ u hu) t (ih'.2.2.2.2.2 t ht)
  | case11 env txsLocal txsRemote isLocal acc hgas tx hpeek henc hbytes hprot hc ih =>
    intro hI1 hI2
    rw [commitLoop_peek_step applyTransaction isEIP155 better maxTx maxBytes
      env txsLocal txsRemote isLocal acc tx hgas hpeek]
    simp only [commitStep, henc, if_false, if_neg hbytes, if_neg hprot, hc]
    have ih' := ih hI1 hI2
    simp only [dite_eq_ite] at ih'
    refine ⟨ih'.1, ih'.2.1, ih'.2.2.1, ?_, ?_, ?_⟩
    · intro t ht
      rcases ih'.2.2.2.1 t ht with h | h | h
      · exact Or.inl h
      · exact Or.inr (Or.inl (allTxs_ite_subset
          (fun u hu => mem_allTxs_shift better _ u hu) (fun u hu => hu) t h))
      · exact Or.inr (Or.inr (allTxs_ite_subset
          (fun u hu => hu) (fun u hu => mem_allTxs_shift better _ u hu) t h))
    · intro t ht
      exact allTxs_ite_subset (fun u hu => mem_allTxs_shift better _ u hu)
        (fun u hu => hu) t (ih'.2.2.2.2.1 t ht)
    · intro t ht
      exact allTxs_ite_subset (fun u hu => hu)
        (fun u hu => mem_allTxs_shift better _ u hu) t (ih'.2.2.2.2.2 t ht)
  | case12 env txsLocal txsRemote isLocal acc hgas tx hpeek henc hbytes hprot st gp hc envP hcount =>
    intro hI1 hI2
    rw [commitLoop_peek_step applyTransaction isEIP155 better maxTx maxBytes
      env txsLocal txsRemote isLocal acc tx hgas hpeek]
    simp only [commitStep, if_neg henc, if_neg hbytes, if_neg hprot, hc]
    have henvP : envP = { env with state := st, gasPool := gp, tcount := env.tcount + 1, txs := env.txs ++ [tx] } := rfl
    rw [henvP] at hcount
    have hcount' : maxTx ≤ env.tcount + 1 := by simpa using hcount
    rw [if_pos hcount']
    obtain ⟨s, hsend, hnonce, hmono, hbump⟩ := applyTransaction_ok hc
    have htxmem : tx ∈ allTxs (if isLocal then txsLocal else txsRemote) :=
      peek_mem_allTxs _ tx hpeek
    have hnotmem : tx ∉ prev ++ env.txs := by
      intro hmem
      obtain ⟨s', hs', hlt⟩ := hI1 tx hmem
      rw [hsend] at hs'
      cases hs'
      omega
    refine ⟨?_, ?_, ?_, ?_, fun t ht => ht, fun t ht => ht⟩
    · intro t ht
      simp only [List.mem_append, List.mem_singleton] at ht
      rcases ht with ht | ht | ht
      · obtain ⟨s', hs', hlt⟩ := hI1 t (List.mem_append.mpr (Or.inl ht))
        exact ⟨s', hs', lt_of_lt_of_le hlt (hmono s')⟩
      · obtain ⟨s', hs', hlt⟩ := hI1 t (List.mem_append.mpr (Or.inr ht))
        exact ⟨s', hs', lt_of_lt_of_le hlt (hmono s')⟩
      · subst ht
        exact ⟨s, hsend, show _ < st s by omega⟩
    · rw [show prev ++ (env.txs ++ [tx]) = (prev ++ env.txs) ++ [tx] by simp]
      rw [List.nodup_append]
      refine ⟨hI2, by simp, ?_⟩
      intro a ha hb
      simp only [List.mem_singleton] at hb
      subst hb
      exact hnotmem ha
    · exact hmono
    · intro t ht
      simp only [List.mem_append, List.mem_singleton] at ht
      rcases ht with ht | ht
      · exact Or.inl ht
      · subst ht
        cases hb : isLocal
        · rw [hb] at htxmem
          simp at htxmem
          exact Or.inr (Or.inr htxmem)
        · rw [hb] at htxmem
          simp at htxmem
          exact Or.inr (Or.inl htxmem)
  | case13 env txsLocal txsRemote isLocal acc hgas tx hpeek henc hbytes hprot st gp hc envP hcount ih =>
    intro hI1 hI2
    rw [commitLoop_peek_step applyTransaction isEIP155 better maxTx maxBytes
      env txsLocal txsRemote isLocal acc tx hgas hpeek]
    simp only [commitStep, if_neg henc, if_neg hbytes, if_neg hprot, hc]
    have henvP : envP = { env with state := st, gasPool := gp, tcount := env.tcount + 1, txs := env.txs ++ [tx] } := rfl
    rw [henvP] at hcount
    have hcount' : ¬ maxTx ≤ env.tcount + 1 := by simpa using hcount
    rw [if_neg hcount']
    rw [henvP] at ih
    obtain ⟨s, hsend, hnonce, hmono, hbump⟩ := applyTransaction_ok hc
    have htxmem : tx ∈ allTxs (if isLocal then txsLocal else txsRemote) :=
      peek_mem_allTxs _ tx hpeek
    have hnotmem : tx ∉ prev ++ env.txs := by
      intro hmem
      obtain ⟨s', hs', hlt⟩ := hI1 tx hmem
      rw [hsend] at hs'
      cases hs'
      omega
    have hI1' : ∀ t ∈ prev ++ (env.txs ++ [tx]), ∃ s', t.sender = some s' ∧
        t.nonce < st s' := by
      intro t ht
      simp only [List.mem_append, List.mem_singleton] at ht
      rcases ht with ht | ht | ht
      · obtain ⟨s', hs', hlt⟩ := hI1 t (List.mem_append.mpr (Or.inl ht))
        exact ⟨s', hs', lt_of_lt_of_le hlt (hmono s')⟩
      · obtain ⟨s', hs', hlt⟩ := hI1 t (List.mem_append.mpr (Or.inr ht))
        exact ⟨s', hs', lt_of_lt_of_le hlt (hmono s')⟩
      · subst ht
        exact ⟨s, hsend, by omega⟩
    have hI2' : (prev ++ (env.txs ++ [tx])).Nodup := by
      rw [show prev ++ (env.txs ++ [tx]) = (prev ++ env.txs) ++ [tx] by simp]
      rw [List.nodup_append]
      refine ⟨hI2, by simp, ?_⟩
      intro a ha hb
      simp only [List.mem_singleton] at hb
      subst hb
      exact hnotmem ha
    have ih' := ih hI1' hI2'
    simp only [dite_eq_ite] at ih'
    refine ⟨ih'.1, ih'.2.1, ?_, ?_, ?_, ?_⟩
    · intro a
      exact le_trans (hmono a) (ih'.2.2.1 a)
    · intro t ht
      rcases ih'.2.2.2.1 t ht with h | h | h
      · simp only [List.mem_append, List.mem_singleton] at h
        rcases h with h | h
        · exact Or.inl h
        · subst h
          cases hb : isLocal
          · rw [hb] at htxmem
            simp at htxmem
            exact Or.inr (Or.inr htxmem)
          · rw [hb] at htxmem
            simp at htxmem
            exact Or.inr (Or.inl htxmem)
      · exact Or.inr (Or.inl (allTxs_ite_subset
          (fun u hu => mem_allTxs_shift better _ u hu) (fun u hu => hu) t h))
      · exact Or.inr (Or.inr (allTxs_ite_subset
          (fun u hu => hu) (fun u hu => mem_allTxs_shift better _ u hu) t h))
    · intro t ht
      exact allTxs_ite_subset (fun u hu => mem_allTxs_shift better _ u hu)
        (fun u hu => hu) t (ih'.2.2.2.2.1 t ht)
    · intro t ht
      exact allTxs_ite_subset (fun u hu => hu)
        (fun u hu => mem_allTxs_shift better _ u hu) t (ih'.2.2.2.2.2 t ht)

/-! ## The multi-list round (BuildTransactionsLists' loop, for C3 and C8) -/

/-- The per-attempt reset performed by BuildTransactionsLists' commitTxs
closure: transaction count to zero, accumulated list to empty, gas pool and
header gas limit to the fixed per-list gas limit.  The execution state and
the rest of the environment carry over. -/
def resetEnv {σ : Type} (env : Env σ) (blockMaxGasLimit : Nat) : Env σ :=
  { env with
    tcount := 0
    txs := []
    gasPool := blockMaxGasLimit
    header := { env.header with gasLimit := blockMaxGasLimit } }

/-- Embedding of the list loop of (w *worker) BuildTransactionsLists
(miner/taiko_worker.go) together with its commitTxs closure: each of up to n
iterations resets the environment via resetEnv, runs commitL2Transactions,
appends the produced list, and stops early when the builder reports full
drainage.  The final component is a ghost trace recording, per attempt, the
environment passed to the builder and the drained flag it returned; it
instruments the recursion for the statements below and feeds nothing back
into it. -/
def buildLoop {σ : Type} (commitTx : CommitFn σ) (isEIP155 : Bool)
    (better : Tx → Tx → Bool) (blockMaxGasLimit maxTx maxBytes : Nat)
    (env : Env σ) (txsLocal txsRemote : TxsByPriceAndNonce) (n : Nat)
    (acc : List (List Tx)) (trace : List (Env σ × Bool)) :
    List (List Tx) × Env σ × TxsByPriceAndNonce × TxsByPriceAndNonce ×
      List (Env σ × Bool) :=
  match n with
  | 0 => (acc, env, txsLocal, txsRemote, trace)
  | Nat.succ n =>
    let envR : Env σ := resetEnv env blockMaxGasLimit
    let r := commitL2Transactions commitTx isEIP155 better envR txsLocal
      txsRemote maxTx maxBytes
    if r.2.2.2.1 then
      (acc ++ [r.1.txs], r.1, r.2.1, r.2.2.1, trace ++ [(envR, r.2.2.2.1)])
    else
      buildLoop commitTx isEIP155 better blockMaxGasLimit maxTx maxBytes
        r.1 r.2.1 r.2.2.1 n (acc ++ [r.1.txs]) (trace ++ [(envR, r.2.2.2.1)])

/-- The multi-list round: up to maxLists build attempts starting from empty
output (BuildTransactionsLists' loop entered with no lists built). -/
def buildRound {σ : Type} (commitTx : CommitFn σ) (isEIP155 : Bool)
    (better : Tx → Tx → Bool) (blockMaxGasLimit maxTx maxBytes : Nat)
    (env : Env σ) (txsLocal txsRemote : TxsByPriceAndNonce)
    (maxLists : Nat) :
    List (List Tx) × Env σ × TxsByPriceAndNonce × TxsByPriceAndNonce ×
      List (Env σ × Bool) :=
  buildLoop commitTx isEIP155 better blockMaxGasLimit maxTx maxBytes env
    txsLocal txsRemote maxLists [] []

/-- Every attempt recorded by the round's trace that is not inherited from
the input trace starts from reset counters, an empty list, and the fixed
per-list gas limit. -/
theorem buildLoop_trace_reset {σ : Type} (commitTx : CommitFn σ)
    (isEIP155 : Bool) (better : Tx → Tx → Bool)
    (blockMaxGasLimit maxTx maxBytes : Nat) (n : Nat) :
    ∀ (env : Env σ) (txsLocal txsRemote : TxsByPriceAndNonce)
      (acc : List (List Tx)) (trace : List (Env σ × Bool)),
      ∀ e ∈ (buildLoop commitTx isEIP155 better blockMaxGasLimit maxTx
          maxBytes env txsLocal txsRemote n acc trace).2.2.2.2,
        e ∈ trace ∨ (e.1.tcount = 0 ∧ e.1.txs = [] ∧
          e.1.gasPool = blockMaxGasLimit ∧
          e.1.header.gasLimit = blockMaxGasLimit) := by
  induction n with
  | zero =>
    intro env txsLocal txsRemote acc trace e he
    exact Or.inl he
  | succ n ih =>
    intro env txsLocal txsRemote acc trace e he
    rw [buildLoop] at he
    by_cases hdr : (commitL2Transactions commitTx isEIP155 better
        (resetEnv env blockMaxGasLimit) txsLocal txsRemote maxTx
        maxBytes).2.2.2.1
    · rw [if_pos hdr] at he
      simp only [List.mem_append, List.mem_singleton] at he
      rcases he with he | he
      · exact Or.inl he
      · subst he
        exact Or.inr ⟨rfl, rfl, rfl, rfl⟩
    · rw [if_neg hdr] at he
      rcases ih _ _ _ _ _ e he with hin | hreset
      · simp only [List.mem_append, List.mem_singleton] at hin
        rcases hin with hin | hin
        · exact Or.inl hin
        · subst hin
          exact Or.inr ⟨rfl, rfl, rfl, rfl⟩
      · exact Or.inr hreset

/-- The round performs at most n attempts beyond the inherited trace. -/
theorem buildLoop_trace_length {σ : Type} (commitTx : CommitFn σ)
    (isEIP155 : Bool) (better : Tx → Tx → Bool)
    (blockMaxGasLimit maxTx maxBytes : Nat) (n : Nat) :
    ∀ (env : Env σ) (txsLocal txsRemote : TxsByPriceAndNonce)
      (acc : List (List Tx)) (trace : List (Env σ × Bool)),
      (buildLoop commitTx isEIP155 better blockMaxGasLimit maxTx maxBytes env
        txsLocal txsRemote n acc trace).2.2.2.2.length ≤ trace.length + n := by
  induction n with
  | zero =>
    intro env txsLocal txsRemote acc trace
    simp [buildLoop]
  | succ n ih =>
    intro env txsLocal txsRemote acc trace
    rw [buildLoop]
    by_cases hdr : (commitL2Transactions commitTx isEIP155 better
        (resetEnv env blockMaxGasLimit) txsLocal txsRemote maxTx
        maxBytes).2.2.2.1
    · rw [if_pos hdr]
      simp
    · rw [if_neg hdr]
      refine le_trans (ih _ _ _ _ _) ?_
      simp only [List.length_append, List.length_singleton]
      omega

/-- Only the round's final attempt may report full drainage: the loop
recurses only on a false drained flag. -/
theorem buildLoop_trace_early_stop {σ : Type} (commitTx : CommitFn σ)
    (isEIP155 : Bool) (better : Tx → Tx → Bool)
    (blockMaxGasLimit maxTx maxBytes : Nat) (n : Nat) :
    ∀ (env : Env σ) (txsLocal txsRemote : TxsByPriceAndNonce)
      (acc : List (List Tx)) (trace : List (Env σ × Bool)),
      (∀ e ∈ trace, e.2 = false) →
      ∀ e ∈ (buildLoop commitTx isEIP155 better blockMaxGasLimit maxTx
          maxBytes env txsLocal txsRemote n acc trace).2.2.2.2.dropLast,
        e.2 = false := by
  induction n with
  | zero =>
    intro env txsLocal txsRemote acc trace htr e he
    rw [buildLoop] at he
    exact htr e (List.dropLast_subset _ he)
  | succ n ih =>
    intro env txsLocal txsRemote acc trace htr e he
    rw [buildLoop] at he
    by_cases hdr : (commitL2Transactions commitTx isEIP155 better
        (resetEnv env blockMaxGasLimit) txsLocal txsRemote maxTx
        maxBytes).2.2.2.1
    · rw [if_pos hdr] at he
      rw [List.dropLast_concat] at he
      exact htr e he
    · rw [if_neg hdr] at he
      refine ih _ _ _ _ _ ?_ e he
      intro f hf
      simp only [List.mem_append, List.mem_singleton] at hf
      rcases hf with hf | hf
      · exact htr f hf
      · subst hf
        simpa using hdr

/-- Across the whole multi-list round under the spec-modelled state
transition applyTransaction, the concatenation of all committed lists stays
duplicate-free and every committed transaction originates in the supplies
(relative to an invariant for transactions already committed on entry). -/
theorem buildLoop_committed_inv (isEIP155 : Bool) (better : Tx → Tx → Bool)
    (blockMaxGasLimit maxTx maxBytes : Nat) (n : Nat) :
    ∀ (env : Env (Nat → Nat)) (txsLocal txsRemote : TxsByPriceAndNonce)
      (acc : List (List Tx)) (trace : List (Env (Nat → Nat) × Bool)),
      (∀ t ∈ acc.flatten, ∃ s, t.sender = some s ∧ t.nonce < env.state s) →
      acc.flatten.Nodup →
      ((buildLoop applyTransaction isEIP155 better blockMaxGasLimit maxTx
          maxBytes env txsLocal txsRemote n acc trace).1.flatten.Nodup ∧
       ∀ t ∈ (buildLoop applyTransaction isEIP155 better blockMaxGasLimit
          maxTx maxBytes env txsLocal txsRemote n acc trace).1.flatten,
         t ∈ acc.flatten ∨ t ∈ allTxs txsLocal ∨ t ∈ allTxs txsRemote) := by
  induction n with
  | zero =>
    intro env txsLocal txsRemote acc trace hJ1 hJ2
    rw [buildLoop]
    exact ⟨hJ2, fun t ht => Or.inl ht⟩
  | succ n ih =>
    intro env txsLocal txsRemote acc trace hJ1 hJ2
    rw [buildLoop]
    have hI1 : ∀ t ∈ acc.flatten ++ (resetEnv env blockMaxGasLimit).txs,
        ∃ s, t.sender = some s ∧
          t.nonce < (resetEnv env blockMaxGasLimit).state s := by
      simp only [resetEnv, List.append_nil]
      exact hJ1
    have hI2 : (acc.flatten ++ (resetEnv env blockMaxGasLimit).txs).Nodup := by
      simp only [resetEnv, List.append_nil]
      exact hJ2
    have hinv := commitLoop_nonce_inv isEIP155 better maxTx maxBytes
      (resetEnv env blockMaxGasLimit) txsLocal txsRemote true 0 acc.flatten
      hI1 hI2
    rw [show commitLoop applyTransaction isEIP155 better maxTx maxBytes
        (resetEnv env blockMaxGasLimit) txsLocal txsRemote true 0 =
        commitL2Transactions applyTransaction isEIP155 better
          (resetEnv env blockMaxGasLimit) txsLocal txsRemote maxTx maxBytes
      from rfl] at hinv
    have hc4 : ∀ t ∈ (commitL2Transactions applyTransaction isEIP155 better
        (resetEnv env blockMaxGasLimit) txsLocal txsRemote maxTx
        maxBytes).1.txs,
        t ∈ allTxs txsLocal ∨ t ∈ allTxs txsRemote := by
      intro t ht
      rcases hinv.2.2.2.1 t ht with h | h | h
      · simp [resetEnv] at h
      · exact Or.inl h
      · exact Or.inr h
    by_cases hdr : (commitL2Transactions applyTransaction isEIP155 better
        (resetEnv env blockMaxGasLimit) txsLocal txsRemote maxTx
        maxBytes).2.2.2.1
    · rw [if_pos hdr]
      simp only [List.flatten_append, List.flatten_cons, List.flatten_nil,
        List.append_nil]
      refine ⟨hinv.2.1, ?_⟩
      intro t ht
      rcases List.mem_append.mp ht with h | h
      · exact Or.inl h
      · rcases hc4 t h with h' | h'
        · exact Or.inr (Or.inl h')
        · exact Or.inr (Or.inr h')
    · rw [if_neg hdr]
      have hJ1' : ∀ t ∈ (acc ++ [(commitL2Transactions applyTransaction
          isEIP155 better (resetEnv env blockMaxGasLimit) txsLocal txsRemote
          maxTx maxBytes).1.txs]).flatten,
          ∃ s, t.sender = some s ∧ t.nonce <
            (commitL2Transactions applyTransaction isEIP155 better
              (resetEnv env blockMaxGasLimit) txsLocal txsRemote maxTx
              maxBytes).1.state s := by
        simp only [List.flatten_append, List.flatten_cons, List.flatten_nil,
          List.append_nil]
        exact hinv.1
      have hJ2' : (acc ++ [(commitL2Transactions applyTransaction isEIP155
          better (resetEnv env blockMaxGasLimit) txsLocal txsRemote maxTx
          maxBytes).1.txs]).flatten.Nodup := by
        simp only [List.flatten_append, List.flatten_cons, List.flatten_nil,
          List.append_nil]
        exact hinv.2.1
      have hrec := ih (commitL2Transactions applyTransaction isEIP155 better
          (resetEnv env blockMaxGasLimit) txsLocal txsRemote maxTx maxBytes).1
        (commitL2Transactions applyTransaction isEIP155 better
          (resetEnv env blockMaxGasLimit) txsLocal txsRemote maxTx
          maxBytes).2.1
        (commitL2Transactions applyTransaction isEIP155 better
          (resetEnv env blockMaxGasLimit) txsLocal txsRemote maxTx
          maxBytes).2.2.1
        (acc ++ [(commitL2Transactions applyTransaction isEIP155 better
          (resetEnv env blockMaxGasLimit) txsLocal txsRemote maxTx
          maxBytes).1.txs])
        (trace ++ [(resetEnv env blockMaxGasLimit,
          (commitL2Transactions applyTransaction isEIP155 better
            (resetEnv env blockMaxGasLimit) txsLocal txsRemote maxTx
            maxBytes).2.2.2.1)]) hJ1' hJ2'
      refine ⟨hrec.1, ?_⟩
      intro t ht
      rcases hrec.2 t ht with h | h | h
      · simp only [List.flatten_append, List.flatten_cons, List.flatten_nil,
          List.append_nil] at h
        rcases List.mem_append.mp h with h' | h'
        · exact Or.inl h'
        · rcases hc4 t h' with h'' | h''
          · exact Or.inr (Or.inl h'')
          · exact Or.inr (Or.inr h'')
      · exact Or.inr (Or.inl (hinv.2.2.2.2.1 t h))
      · exact Or.inr (Or.inr (hinv.2.2.2.2.2 t h))

/-- A concrete miner environment over the spec-modelled nonce-map state: all
account nonces start at zero. -/
def wEnvNonce : Env (Nat → Nat) :=
  { state := fun _ => 0, gasPool := 100000, tcount := 0, txs := [],
    header := wParent }

/-- C3 (amended): in one multi-list round every build attempt starts from
reset counters — the transaction count is zero, the accumulated list is
empty, the gas pool and the header gas limit equal blockMaxGasLimit — while
the underlying execution state is shared across attempts (one environment is
prepared once and state mutations persist); the round performs at most the
caller-specified number of attempts, and every attempt before the final one
reported incomplete drainage (the loop stops early on full drainage). -/
theorem C3_buildRound_fresh_counters :
    ∀ {σ : Type} (commitTx : CommitFn σ) (isEIP155 : Bool)
      (better : Tx → Tx → Bool) (blockMaxGasLimit maxTx maxBytes : Nat)
      (env : Env σ) (txsLocal txsRemote : TxsByPriceAndNonce)
      (maxLists : Nat),
      (∀ e ∈ (buildRound commitTx isEIP155 better blockMaxGasLimit maxTx
          maxBytes env txsLocal txsRemote maxLists).2.2.2.2,
        e.1.tcount = 0 ∧ e.1.txs = [] ∧ e.1.gasPool = blockMaxGasLimit ∧
          e.1.header.gasLimit = blockMaxGasLimit) ∧
      (buildRound commitTx isEIP155 better blockMaxGasLimit maxTx maxBytes
          env txsLocal txsRemote maxLists).2.2.2.2.length ≤ maxLists ∧
      (∀ e ∈ (buildRound commitTx isEIP155 better blockMaxGasLimit maxTx
          maxBytes env txsLocal txsRemote maxLists).2.2.2.2.dropLast,
        e.2 = false) := by
  intro σ commitTx isEIP155 better blockMaxGasLimit maxTx maxBytes env
    txsLocal txsRemote maxLists
  refine ⟨?_, ?_, ?_⟩
  · intro e he
    rcases buildLoop_trace_reset commitTx isEIP155 better blockMaxGasLimit
      maxTx maxBytes maxLists env txsLocal txsRemote [] [] e he with h | h
    · simp at h
    · exact h
  · simpa using buildLoop_trace_length commitTx isEIP155 better
      blockMaxGasLimit maxTx maxBytes maxLists env txsLocal txsRemote [] []
  · exact buildLoop_trace_early_stop commitTx isEIP155 better blockMaxGasLimit
      maxTx maxBytes maxLists env txsLocal txsRemote [] [] (by simp)

/-- C3 counterexample: the claim's "no state mutations carry over from a
previous attempt" fails.  In a concrete round (count limit 1 per list, two
lists) over the supply of sender 1's transactions with nonces 0 and 1 under
the spec-modelled state transition, the first attempt starts with sender 1's
nonce at 0 but the second attempt starts with it at 1: the attempt-start
execution states are not all equal to the parent state. -/
theorem C3_counterexample :
    ((buildRound applyTransaction true (fun _ _ => true) 100000 1 1000
        wEnvNonce [(wTxA, [wTxB])] [] 2).2.2.2.2.map
      (fun e => e.1.state 1)) = [0, 1] ∧
    ¬ (∀ e ∈ (buildRound applyTransaction true (fun _ _ => true) 100000 1 1000
        wEnvNonce [(wTxA, [wTxB])] [] 2).2.2.2.2,
        e.1.state 1 = wEnvNonce.state 1) := by
  have hmap : ((buildRound applyTransaction true (fun _ _ => true) 100000 1
      1000 wEnvNonce [(wTxA, [wTxB])] [] 2).2.2.2.2.map
      (fun e => e.1.state 1)) = [0, 1] := by
    simp [buildRound, buildLoop, resetEnv, commitL2Transactions, commitLoop,
      TxsByPriceAndNonce.peek, TxsByPriceAndNonce.shift,
      TxsByPriceAndNonce.pop, insertByPrice, applyTransaction, TxGas,
      wEnvNonce, wTxA, wTxB]
  refine ⟨hmap, ?_⟩
  intro hall
  have hone : (1 : Nat) ∈ ((buildRound applyTransaction true (fun _ _ => true)
      100000 1 1000 wEnvNonce [(wTxA, [wTxB])] [] 2).2.2.2.2.map
      (fun e => e.1.state 1)) := by
    rw [hmap]
    simp
  rcases List.mem_map.mp hone with ⟨e, he, hfe⟩
  have h0 := hall e he
  rw [h0] at hfe
  simp [wEnvNonce] at hfe

/-- C3 witness: the amended per-attempt reset at a concrete two-attempt
round: the trace has at most two entries and its first attempt runs from the
reset environment. -/
theorem C3_witness :
    (buildRound applyTransaction true (fun _ _ => true) 100000 1 1000
      wEnvNonce [(wTxA, [wTxB])] [] 2).2.2.2.2.length ≤ 2 ∧
    ((resetEnv wEnvNonce 100000).tcount = 0 ∧
      (resetEnv wEnvNonce 100000).txs = [] ∧
      (resetEnv wEnvNonce 100000).gasPool = 100000 ∧
      (resetEnv wEnvNonce 100000).header.gasLimit = 100000) := by
  refine ⟨(C3_buildRound_fresh_counters applyTransaction true (fun _ _ => true)
    100000 1 1000 wEnvNonce [(wTxA, [wTxB])] [] 2).2.1, ?_⟩
  exact (C3_buildRound_fresh_counters applyTransaction true (fun _ _ => true)
    100000 1 1000 wEnvNonce [(wTxA, [wTxB])] [] 2).1
    (resetEnv wEnvNonce 100000, false)
    (by simp [buildRound, buildLoop, resetEnv, commitL2Transactions,
      commitLoop, TxsByPriceAndNonce.peek, TxsByPriceAndNonce.shift,
      TxsByPriceAndNonce.pop, insertByPrice, applyTransaction, TxGas,
      wEnvNonce, wTxA, wTxB])

/-- C8: in one multi-list build round under the spec-modelled state
transition, the total number of committed transactions over all emitted
lists never exceeds the number of distinct transactions offered by the two
supplies, and no transaction occurs more than once across the emitted lists
(so none is committed into more than one list). -/
theorem C8_buildRound_no_double_commit :
    ∀ (isEIP155 : Bool) (better : Tx → Tx → Bool)
      (blockMaxGasLimit maxTx maxBytes maxLists : Nat)
      (env : Env (Nat → Nat)) (txsLocal txsRemote : TxsByPriceAndNonce),
      (((buildRound applyTransaction isEIP155 better blockMaxGasLimit maxTx
          maxBytes env txsLocal txsRemote maxLists).1.map List.length).sum ≤
        (allTxs txsLocal ++ allTxs txsRemote).dedup.length) ∧
      (∀ t : Tx, (buildRound applyTransaction isEIP155 better blockMaxGasLimit
          maxTx maxBytes env txsLocal txsRemote
          maxLists).1.flatten.count t ≤ 1) := by
  intro isEIP155 better blockMaxGasLimit maxTx maxBytes maxLists env txsLocal
    txsRemote
  have hinv := buildLoop_committed_inv isEIP155 better blockMaxGasLimit maxTx
    maxBytes maxLists env txsLocal txsRemote [] [] (by simp) (by simp)
  have hnd := hinv.1
  have hsub : ∀ t ∈ (buildLoop applyTransaction isEIP155 better
      blockMaxGasLimit maxTx maxBytes env txsLocal txsRemote maxLists []
      []).1.flatten, t ∈ allTxs txsLocal ++ allTxs txsRemote := by
    intro t ht
    rcases hinv.2 t ht with h | h | h
    · simp at h
    · exact List.mem_append.mpr (Or.inl h)
    · exact List.mem_append.mpr (Or.inr h)
  constructor
  · rw [buildRound, ← List.length_flatten]
    calc (buildLoop applyTransaction isEIP155 better blockMaxGasLimit maxTx
        maxBytes env txsLocal txsRemote maxLists [] []).1.flatten.length
        = (buildLoop applyTransaction isEIP155 better blockMaxGasLimit maxTx
          maxBytes env txsLocal txsRemote maxLists []
          []).1.flatten.dedup.length := by
          rw [List.dedup_eq_self.mpr hnd]
      _ = (buildLoop applyTransaction isEIP155 better blockMaxGasLimit maxTx
          maxBytes env txsLocal txsRemote maxLists []
          []).1.flatten.toFinset.card := (List.card_toFinset _).symm
      _ ≤ (allTxs txsLocal ++ allTxs txsRemote).toFinset.card :=
          Finset.card_le_card (fun x hx => List.mem_toFinset.mpr
            (hsub x (List.mem_toFinset.mp hx)))
      _ = (allTxs txsLocal ++ allTxs txsRemote).dedup.length :=
          List.card_toFinset _
  · intro t
    exact List.nodup_iff_count_le_one.mp hnd t

/-! ## Block sealing (sealBlockWith, for C5) -/

/-- Error results of sealBlockWith, by return site: transaction-list decode
failure, an empty decoded list, a prepareWork failure (e.g. unknown
ancestor), or an error from the engine's Seal. -/
inductive SealErr where
  | decodeFailed
  | tooFewTransactions
  | prepareFailed
  | sealFailed (e : ConsensusError)
  deriving Repr, DecidableEq

/-- The externally supplied block metadata (beacon/engine.BlockMetadata
fields read by sealBlockWith). -/
structure BlockMetadata where
  beneficiary : Nat
  gasLimit : Nat
  extraData : List Nat
  mixHash : Nat
  txList : List Nat
  deriving Repr, DecidableEq

/-- Type of the commit collaborator as used by sealBlockWith: like CommitFn
but carrying the i == 0 flag the source passes for the first (anchor)
transaction. -/
abbrev SealCommitFn (σ : Type) : Type :=
  σ → Nat → Tx → Bool → Except CommitErr (σ × Nat)

/-- The transaction replay loop of sealBlockWith: for each transaction in the
supplied order, recover the sender (a failure is recorded and the transaction
skipped), commit it (state preparation and transaction-context setup are
absorbed into the commit collaborator; an error is recorded and the
transaction skipped — the sender-recovery error is recorded as the strange
class), and on success append it and advance the count.  Returns the final
environment and the recorded per-transaction errors, which the source
computes and then discards. -/
def sealReplay {σ : Type} (commitTx : SealCommitFn σ) (env : Env σ)
    (txs : List Tx) (i : Nat) : Env σ × List CommitErr :=
  match txs with
  | [] => (env, [])
  | tx :: rest =>
    match tx.sender with
    | none =>
      let r := sealReplay commitTx env rest (i + 1)
      (r.1, CommitErr.other :: r.2)
    | some _ =>
      match commitTx env.state env.gasPool tx (i == 0) with
      | .error e =>
        let r := sealReplay commitTx env rest (i + 1)
        (r.1, e :: r.2)
      | .ok (st, gp) =>
        let env' : Env σ := { env with
          state := st
          gasPool := gp
          tcount := env.tcount + 1
          txs := env.txs ++ [tx] }
        sealReplay commitTx env' rest (i + 1)

/-- Embedding of (t *Taiko) Finalize (consensus/taiko/consensus.go):
recompute the state root, force the canonical empty uncle hash and zero
difficulty.  `intermediateRoot` abstracts state.IntermediateRoot(true). -/
def Finalize {σ : Type} (intermediateRoot : σ → Nat) (header : Header)
    (state : σ) : Header :=
  { header with
    root := intermediateRoot state
    uncleHash := emptyUncleHash
    difficulty := some 0 }

/-- Embedding of (t *Taiko) FinalizeAndAssemble: finalize, then assemble the
block from the header and transactions, ignoring uncles (the source's error
result is always nil). -/
def FinalizeAndAssemble {σ : Type} (intermediateRoot : σ → Nat)
    (header : Header) (state : σ) (txs : List Tx) : Block :=
  { header := Finalize intermediateRoot header state, txs := txs }

/-- With buffer space and no stop signal, Seal either rejects a (uint64) zero
block number or publishes the block: the handoff cannot be missed. -/
theorem Seal_free_slot (block : Block) :
    Seal block true false false = (some ConsensusError.invalidNumber, none) ∨
    Seal block true false false = (none, some block) := by
  by_cases h : uint64OfInt block.header.number = 0
  · left
    simp [Seal, h]
  · right
    simp [Seal, h, Block.withSeal_self]

/-- Embedding of (w *worker) sealBlockWith (miner/taiko_worker.go).
`decodeTxs` abstracts rlp.DecodeBytes on the raw transaction list bytes;
`prepare` is the response of w.prepareWork for the supplied parent and
metadata (an error when, e.g., the parent cannot be resolved); `commitTx`
the per-transaction commit collaborator; `intermediateRoot` the state
collaborator's root hook.  Gas limit and extra data are overridden from the
metadata, the gas pool is funded with the metadata gas limit, transactions
are replayed in order with per-transaction failures skipped, and the
finalized, assembled block is passed through the engine's Seal with a fresh
capacity-one results channel and no stop channel.  Returns the Go pair
(block, error); the unreachable no-error no-publish case of Seal is returned
as (none, none) — there the Go code would block forever reading the
channel. -/
def sealBlockWith {σ : Type} (decodeTxs : List Nat → Option (List Tx))
    (prepare : Except ConsensusError (Env σ)) (commitTx : SealCommitFn σ)
    (intermediateRoot : σ → Nat) (blkMeta : BlockMetadata) :
    Option Block × Option SealErr :=
  match decodeTxs blkMeta.txList with
  | none => (none, some SealErr.decodeFailed)
  | some txs =>
    if txs.length = 0 then (none, some SealErr.tooFewTransactions)
    else
      match prepare with
      | .error _ => (none, some SealErr.prepareFailed)
      | .ok env0 =>
        let env1 : Env σ := { env0 with
          header := { env0.header with
            gasLimit := blkMeta.gasLimit
            extra := blkMeta.extraData }
          gasPool := blkMeta.gasLimit }
        let env2 := (sealReplay commitTx env1 txs 0).1
        let block := FinalizeAndAssemble intermediateRoot env2.header
          env2.state env2.txs
        match Seal block true false false with
        | (some e, _) => (none, some (SealErr.sealFailed e))
        | (none, some b) => (some b, none)
        | (none, none) => (none, none)

/-- The replay loop never changes the header under construction. -/
theorem sealReplay_header {σ : Type} (commitTx : SealCommitFn σ) :
    ∀ (txs : List Tx) (env : Env σ) (i : Nat),
      (sealReplay commitTx env txs i).1.header = env.header := by
  intro txs
  induction txs with
  | nil =>
    intro env i
    rfl
  | cons tx rest ih =>
    intro env i
    cases hs : tx.sender with
    | none => simp [sealReplay, hs, ih]
    | some s =>
      cases hc : commitTx env.state env.gasPool tx (i == 0) with
      | error e => simp [sealReplay, hs, hc, ih]
      | ok p =>
        cases p
        simp [sealReplay, hs, hc, ih]

/-- C5: sealBlockWith returns an explicit error and no block when the raw
transaction list fails to decode or decodes to an empty list; every
per-transaction failure of the ordered replay — sender recovery failure or
commit error — records the error and skips only that transaction, the replay
continuing with the rest and the environment unchanged by the failed
transaction; provided the execution environment was prepared (parent
resolved) and the prepared header's number is not the uint64 zero that the
engine's Seal rejects, it returns the fully finalized and assembled block of
exactly the replayed environment; and in every case it returns exactly one
of a block or an error — never both and never neither. -/
theorem C5_sealBlockWith_error_handling :
    ∀ {σ : Type} (decodeTxs : List Nat → Option (List Tx))
      (prepare : Except ConsensusError (Env σ)) (commitTx : SealCommitFn σ)
      (intermediateRoot : σ → Nat) (blkMeta : BlockMetadata),
      (decodeTxs blkMeta.txList = none →
        sealBlockWith decodeTxs prepare commitTx intermediateRoot blkMeta =
          (none, some SealErr.decodeFailed)) ∧
      (decodeTxs blkMeta.txList = some [] →
        sealBlockWith decodeTxs prepare commitTx intermediateRoot blkMeta =
          (none, some SealErr.tooFewTransactions)) ∧
      (∀ (env : Env σ) (tx : Tx) (rest : List Tx) (i : Nat),
        (tx.sender = none →
          sealReplay commitTx env (tx :: rest) i =
            ((sealReplay commitTx env rest (i + 1)).1,
             CommitErr.other :: (sealReplay commitTx env rest (i + 1)).2)) ∧
        (∀ s e, tx.sender = some s →
          commitTx env.state env.gasPool tx (i == 0) = .error e →
          sealReplay commitTx env (tx :: rest) i =
            ((sealReplay commitTx env rest (i + 1)).1,
             e :: (sealReplay commitTx env rest (i + 1)).2)) ∧
        (∀ s st gp, tx.sender = some s →
          commitTx env.state env.gasPool tx (i == 0) = .ok (st, gp) →
          sealReplay commitTx env (tx :: rest) i =
            sealReplay commitTx { env with
              state := st
              gasPool := gp
              tcount := env.tcount + 1
              txs := env.txs ++ [tx] } rest (i + 1))) ∧
      ((sealBlockWith decodeTxs prepare commitTx intermediateRoot
          blkMeta).1.isSome ↔
        (sealBlockWith decodeTxs prepare commitTx intermediateRoot
          blkMeta).2 = none) ∧
      (∀ (txs : List Tx) (env0 : Env σ),
        decodeTxs blkMeta.txList = some txs → txs ≠ [] →
        prepare = .ok env0 →
        uint64OfInt env0.header.number ≠ 0 →
        sealBlockWith decodeTxs prepare commitTx intermediateRoot blkMeta =
          (some (FinalizeAndAssemble intermediateRoot
            (sealReplay commitTx { env0 with
              header := { env0.header with
                gasLimit := blkMeta.gasLimit
                extra := blkMeta.extraData }
              gasPool := blkMeta.gasLimit } txs 0).1.header
            (sealReplay commitTx { env0 with
              header := { env0.header with
                gasLimit := blkMeta.gasLimit
                extra := blkMeta.extraData }
              gasPool := blkMeta.gasLimit } txs 0).1.state
            (sealReplay commitTx { env0 with
              header := { env0.header with
                gasLimit := blkMeta.gasLimit
                extra := blkMeta.extraData }
              gasPool := blkMeta.gasLimit } txs 0).1.txs), none)) := by
  intro σ decodeTxs prepare commitTx intermediateRoot blkMeta
  refine ⟨?_, ?_, ?_, ?_, ?_⟩
  · intro hdec
    simp [sealBlockWith, hdec]
  · intro hdec
    simp [sealBlockWith, hdec]
  · intro env tx rest i
    refine ⟨?_, ?_, ?_⟩
    · intro hs
      simp [sealReplay, hs]
    · intro s e hs hc
      simp [sealReplay, hs, hc]
    · intro s st gp hs hc
      simp [sealReplay, hs, hc]
  · cases hdec : decodeTxs blkMeta.txList with
    | none => simp [sealBlockWith, hdec]
    | some txs =>
      by_cases hlen : txs.length = 0
      · simp [sealBlockWith, hdec, hlen]
      · cases hprep : prepare with
        | error e => simp [sealBlockWith, hdec, hlen, hprep]
        | ok env0 =>
          simp only [sealBlockWith, hdec, hlen, hprep, if_false]
          rcases Seal_free_slot (FinalizeAndAssemble intermediateRoot
            (sealReplay commitTx { env0 with
              header := { env0.header with
                gasLimit := blkMeta.gasLimit
                extra := blkMeta.extraData }
              gasPool := blkMeta.gasLimit } txs 0).1.header
            (sealReplay commitTx { env0 with
              header := { env0.header with
                gasLimit := blkMeta.gasLimit
                extra := blkMeta.extraData }
              gasPool := blkMeta.gasLimit } txs 0).1.state
            (sealReplay commitTx { env0 with
              header := { env0.header with
                gasLimit := blkMeta.gasLimit
                extra := blkMeta.extraData }
              gasPool := blkMeta.gasLimit } txs 0).1.txs) with hseal | hseal
          · rw [hseal]
            simp
          · rw [hseal]
            simp
  · intro txs env0 hdec hne hprep hnum
    have hlen : ¬ txs.length = 0 := by simpa using hne
    simp only [sealBlockWith, hdec, hlen, hprep, if_false]
    have hhead : (sealReplay commitTx { env0 with
        header := { env0.header with
          gasLimit := blkMeta.gasLimit
          extra := blkMeta.extraData }
        gasPool := blkMeta.gasLimit } txs 0).1.header.number =
        env0.header.number := by
      rw [sealReplay_header]
    have hnum' : ¬ uint64OfInt (FinalizeAndAssemble intermediateRoot
        (sealReplay commitTx { env0 with
          header := { env0.header with
            gasLimit := blkMeta.gasLimit
            extra := blkMeta.extraData }
          gasPool := blkMeta.gasLimit } txs 0).1.header
        (sealReplay commitTx { env0 with
          header := { env0.header with
            gasLimit := blkMeta.gasLimit
            extra := blkMeta.extraData }
          gasPool := blkMeta.gasLimit } txs 0).1.state
        (sealReplay commitTx { env0 with
          header := { env0.header with
            gasLimit := blkMeta.gasLimit
            extra := blkMeta.extraData }
          gasPool := blkMeta.gasLimit } txs 0).1.txs).header.number = 0 := by
      simp only [FinalizeAndAssemble, Finalize, hhead]
      exact hnum
    simp [Seal, hnum', Block.withSeal_self]

/-- A concrete seal-commit collaborator over the trivial state committing
every transaction at the minimal gas cost. -/
def wSealCommit : SealCommitFn Unit := fun _ gp _ _ => .ok ((), gp - 21000)

/-- Concrete block metadata for the C5 witness. -/
def wBlkMeta : BlockMetadata :=
  { beneficiary := 5, gasLimit := 100000, extraData := [], mixHash := 0,
    txList := [1] }

/-- A concrete decoder resolving the witness metadata's raw bytes to the
single transaction [wTxA]. -/
def wDecode : List Nat → Option (List Tx) := fun l =>
  if l = [1] then some [wTxA] else none

/-- C5 witness: at the concrete metadata, decoder and collaborators, sealing
returns the fully assembled block of the replayed environment and no
error. -/
theorem C5_witness :
    sealBlockWith wDecode (.ok wEnvUnit) wSealCommit (fun _ => 0) wBlkMeta =
      (some (FinalizeAndAssemble (fun _ => 0)
        (sealReplay wSealCommit { wEnvUnit with
          header := { wEnvUnit.header with
            gasLimit := wBlkMeta.gasLimit
            extra := wBlkMeta.extraData }
          gasPool := wBlkMeta.gasLimit } [wTxA] 0).1.header
        (sealReplay wSealCommit { wEnvUnit with
          header := { wEnvUnit.header with
            gasLimit := wBlkMeta.gasLimit
            extra := wBlkMeta.extraData }
          gasPool := wBlkMeta.gasLimit } [wTxA] 0).1.state
        (sealReplay wSealCommit { wEnvUnit with
          header := { wEnvUnit.header with
            gasLimit := wBlkMeta.gasLimit
            extra := wBlkMeta.extraData }
          gasPool := wBlkMeta.gasLimit } [wTxA] 0).1.txs), none) :=
  (C5_sealBlockWith_error_handling wDecode (.ok wEnvUnit) wSealCommit
    (fun _ => 0) wBlkMeta).2.2.2.2 [wTxA] wEnvUnit (by decide) (by decide)
    rfl (by decide)

/-! ## The content splitter pre-filter (filterTxs, for C9) -/

/-- The per-transaction keep condition of filterTxs
(eth/taiko_api_backend.go): the scan of a sender's queue continues while the
transaction's fee cap has a nonzero uint64 representation —
tx.GasFeeCap().Uint64() takes the low 64 bits of the big.Int fee cap — and
the transaction is not an empty-data transfer with gas limit above
100000. -/
def keepTx (tx : Tx) : Bool :=
  !(tx.gasFeeCap % 2 ^ 64 == 0) &&
    !(tx.data.length == 0 && decide (100000 < tx.gas))

/-- Embedding of filterTxs (eth/taiko_api_backend.go): the pending map as an
association list from sender to queue; each queue is cut at the first
transaction failing keepTx (the range loop breaks there), and a sender whose
remaining queue is empty is omitted from the result. -/
def filterTxs : List (Nat × List Tx) → List (Nat × List Tx)
  | [] => []
  | e :: rest =>
    let pendingTxs := e.2.takeWhile keepTx
    if pendingTxs.length > 0 then (e.1, pendingTxs) :: filterTxs rest
    else filterTxs rest

/-- The keep condition as the claim words it: a literally zero gas-fee cap
(no uint64 truncation). -/
def keepTxClaim (tx : Tx) : Bool :=
  !(tx.gasFeeCap == 0) &&
    !(tx.data.length == 0 && decide (100000 < tx.gas))

/-- The pre-filter as the claim describes it, truncating at the first
transaction with a literally zero fee cap or empty-data high-gas transfer. -/
def filterTxsClaim : List (Nat × List Tx) → List (Nat × List Tx)
  | [] => []
  | e :: rest =>
    let pendingTxs := e.2.takeWhile keepTxClaim
    if pendingTxs.length > 0 then (e.1, pendingTxs) :: filterTxsClaim rest
    else filterTxsClaim rest

/-- The head of the dropped remainder violates the scan predicate. -/
theorem dropWhile_head_false {p : Tx → Bool} :
    ∀ (l : List Tx) (t : Tx) (rest : List Tx),
      l.dropWhile p = t :: rest → p t = false := by
  intro l
  induction l with
  | nil =>
    intro t rest h
    simp [List.dropWhile] at h
  | cons x xs ih =>
    intro t rest h
    by_cases hx : p x
    · rw [List.dropWhile_cons_of_pos hx] at h
      exact ih t rest h
    · rw [List.dropWhile_cons_of_neg hx] at h
      cases h
      simpa using hx

/-- A transaction with fee cap 2^64 and nonempty data: kept by the claim's
literal zero-fee-cap reading, dropped by the code's uint64 truncation. -/
def wTxBigCap : Tx :=
  { nonce := 0, gas := 21000, gasFeeCap := 2 ^ 64, data := [1],
    isProtected := false, size := 10, encOk := true, sender := some 1 }

/-- C9 counterexample: the claim's "zero gas-fee cap" cut-off differs from
the code.  With a single pending transaction whose big.Int fee cap is 2^64
(nonzero) and nonempty data, the code drops the sender entirely — the fee
cap's uint64 representation is zero — while the claimed longest-prefix
characterization keeps the queue untouched. -/
theorem C9_counterexample :
    filterTxs [(1, [wTxBigCap])] = [] ∧
    filterTxsClaim [(1, [wTxBigCap])] = [(1, [wTxBigCap])] ∧
    filterTxs [(1, [wTxBigCap])] ≠ filterTxsClaim [(1, [wTxBigCap])] := by
  refine ⟨?_, ?_, ?_⟩
  · simp [filterTxs, keepTx, wTxBigCap, List.takeWhile]
  · simp [filterTxsClaim, keepTxClaim, wTxBigCap, List.takeWhile]
  · simp [filterTxs, filterTxsClaim, keepTx, keepTxClaim, wTxBigCap,
      List.takeWhile]

/-- Characterization of the pre-filter: a sender appears with queue q
exactly when q is the keepTx cut of its pending queue and q is nonempty. -/
theorem mem_filterTxs (pendings : List (Nat × List Tx)) (a : Nat)
    (q : List Tx) :
    (a, q) ∈ filterTxs pendings ↔
      ∃ txs, (a, txs) ∈ pendings ∧ q = txs.takeWhile keepTx ∧ q ≠ [] := by
  induction pendings with
  | nil => simp [filterTxs]
  | cons e rest ih =>
    obtain ⟨ea, etxs⟩ := e
    by_cases hc : (etxs.takeWhile keepTx).length > 0
    · constructor
      · intro hmem
        simp only [filterTxs, if_pos hc] at hmem
        rcases List.mem_cons.mp hmem with heq | hmem'
        · have ha : a = ea := congrArg Prod.fst heq
          have hq : q = etxs.takeWhile keepTx := congrArg Prod.snd heq
          subst ha
          refine ⟨etxs, List.mem_cons_self _ _, hq, ?_⟩
          rw [hq]
          intro hnil
          rw [hnil] at hc
          simp at hc
        · rcases ih.mp hmem' with ⟨txs, hmem2, hq, hne⟩
          exact ⟨txs, List.mem_cons_of_mem _ hmem2, hq, hne⟩
      · rintro ⟨txs, hmem, hq, hne⟩
        simp only [filterTxs, if_pos hc]
        rcases List.mem_cons.mp hmem with heq | hmem'
        · have ha : a = ea := congrArg Prod.fst heq
          have htx : txs = etxs := congrArg Prod.snd heq
          subst ha
          subst htx
          exact List.mem_cons.mpr (Or.inl (by rw [hq]))
        · exact List.mem_cons.mpr (Or.inr (ih.mpr ⟨txs, hmem', hq, hne⟩))
    · constructor
      · intro hmem
        simp only [filterTxs, if_neg hc] at hmem
        rcases ih.mp hmem with ⟨txs, hmem', hq, hne⟩
        exact ⟨txs, List.mem_cons_of_mem _ hmem', hq, hne⟩
      · rintro ⟨txs, hmem, hq, hne⟩
        simp only [filterTxs, if_neg hc]
        rcases List.mem_cons.mp hmem with heq | hmem'
        · exfalso
          have htx : txs = etxs := congrArg Prod.snd heq
          apply hne
          rw [hq, htx]
          have hz : (etxs.takeWhile keepTx).length = 0 := by omega
          exact List.length_eq_zero.mp hz
        · exact ih.mpr ⟨txs, hmem', hq, hne⟩

/-- C9 (amended): filterTxs maps every sender's pending queue to its longest
prefix containing neither a transaction whose fee cap's uint64
representation (the low 64 bits of the big.Int value, as the code compares
tx.GasFeeCap().Uint64()) is zero nor an empty-data transaction with gas
above 100000: a sender appears in the result with queue q exactly when q is
that sender's cut queue and q is nonempty; the cut is the longest keepTx
prefix — the kept transactions all satisfy keepTx, prefix and remainder
recombine to the original queue, and the first dropped transaction violates
keepTx. -/
theorem C9_filterTxs_amended :
    ∀ (pendings : List (Nat × List Tx)) (a : Nat) (q : List Tx),
      ((a, q) ∈ filterTxs pendings ↔
        ∃ txs, (a, txs) ∈ pendings ∧ q = txs.takeWhile keepTx ∧ q ≠ []) ∧
      (∀ txs : List Tx, txs.takeWhile keepTx ++ txs.dropWhile keepTx = txs) ∧
      (∀ txs : List Tx, ∀ t ∈ txs.takeWhile keepTx, keepTx t = true) ∧
      (∀ (txs : List Tx) (t : Tx) (rest : List Tx),
        txs.dropWhile keepTx = t :: rest → keepTx t = false) := by
  intro pendings a q
  refine ⟨mem_filterTxs pendings a q, ?_, ?_, ?_⟩
  · intro txs
    exact List.takeWhile_append_dropWhile keepTx txs
  · intro txs t ht
    exact List.mem_takeWhile_imp ht
  · intro txs t rest h
    exact dropWhile_head_false txs t rest h

/-- C9 witness: at a concrete pending map with sender 1's queue cut after
wTxA (the second transaction has a zero fee cap), the filtered result
contains exactly the cut queue. -/
def wTxZeroCap : Tx :=
  { nonce := 1, gas := 21000, gasFeeCap := 0, data := [1],
    isProtected := false, size := 10, encOk := true, sender := some 1 }

/-- C9 witness theorem: membership of the cut queue at the concrete pending
map, through the amended characterization. -/
theorem C9_witness :
    (1, [wTxA]) ∈ filterTxs [(1, [wTxA, wTxZeroCap])] :=
  ((C9_filterTxs_amended [(1, [wTxA, wTxZeroCap])] 1 [wTxA]).1).mpr
    ⟨[wTxA, wTxZeroCap], by simp,
      by simp [keepTx, wTxA, wTxZeroCap, List.takeWhile], by simp⟩

/-! ## BuildTransactionsLists' entry (for C10) -/

/-- Build the price-and-nonce iterator from a pending association map
(types.NewTransactionsByPriceAndNonce): each nonempty sender queue becomes
one entry — its head transaction plus the sender's remainder — inserted in
price order; empty queues contribute nothing. -/
def mkSupply (better : Tx → Tx → Bool) (m : List (Nat × List Tx)) :
    TxsByPriceAndNonce :=
  m.foldr (fun e acc =>
    match e.2 with
    | [] => acc
    | t :: ts => insertByPrice better (t, ts) acc) []

/-- The local/remote split loop at the top of BuildTransactionsLists: for
each designated local account, when the remote map holds a nonempty queue
for it, the entry moves from the remote map to the local map.  The remote
map aliases the fetched pending map in the source, so these deletions empty
the pending map itself when every sender is designated local. -/
def splitLocals : List Nat →
    List (Nat × List Tx) × List (Nat × List Tx) →
    List (Nat × List Tx) × List (Nat × List Tx)
  | [], lr => lr
  | a :: rest, lr =>
    let txs := ((lr.2.find? (fun e => e.1 == a)).map Prod.snd).getD []
    if txs.length > 0 then
      splitLocals rest (lr.1 ++ [(a, txs)], lr.2.filter (fun e => e.1 != a))
    else
      splitLocals rest lr

/-- Error results of BuildTransactionsLists' non-building paths: a missing
current head, or a prepareWork failure. -/
inductive BuildErr where
  | noCurrentHead
  | prepareFailed
  deriving Repr, DecidableEq

/-- Embedding of (w *worker) BuildTransactionsLists (miner/taiko_worker.go):
fail without a current head; split pending into locals and remotes — the
remote map aliasing pending, so the emptiness check len(pending) == 0 after
the split reads the remote map — and return the (nil) output immediately
when it is empty; otherwise build both supplies, take prepareWork's response
`prepare`, and run the multi-list round.  Local accounts are modelled as
addresses (the source converts hex strings). -/
def BuildTransactionsLists {σ : Type} (commitTx : CommitFn σ)
    (isEIP155 : Bool) (better : Tx → Tx → Bool) (currentHead : Option Header)
    (pending : List (Nat × List Tx)) (localAccounts : List Nat)
    (prepare : Except BuildErr (Env σ))
    (blockMaxGasLimit maxTx maxBytes maxLists : Nat) :
    Except BuildErr (List (List Tx)) :=
  match currentHead with
  | none => .error BuildErr.noCurrentHead
  | some _ =>
    let lr := splitLocals localAccounts ([], pending)
    if lr.2.length = 0 then .ok []
    else
      match prepare with
      | .error e => .error e
      | .ok env =>
        .ok (buildRound commitTx isEIP155 better blockMaxGasLimit maxTx
          maxBytes env (mkSupply better lr.1) (mkSupply better lr.2)
          maxLists).1

/-- When every remaining remote entry has a nonempty queue and a key among
the processed local accounts, the split empties the remote map. -/
theorem splitLocals_remote_nil :
    ∀ (localAccounts : List Nat)
      (lr : List (Nat × List Tx) × List (Nat × List Tx)),
      (∀ e ∈ lr.2, e.2 ≠ []) →
      (∀ e ∈ lr.2, e.1 ∈ localAccounts) →
      (splitLocals localAccounts lr).2 = [] := by
  intro localAccounts
  induction localAccounts with
  | nil =>
    intro lr hne hkey
    cases h2 : lr.2 with
    | nil => simp [splitLocals, h2]
    | cons e es =>
      exact absurd (hkey e (by rw [h2]; exact List.mem_cons_self _ _))
        (by simp)
  | cons a rest ih =>
    intro lr hne hkey
    by_cases hc : ((((lr.2.find? (fun e => e.1 == a)).map
        Prod.snd).getD []).length > 0)
    · rw [splitLocals, if_pos hc]
      refine ih _ ?_ ?_
      · intro e he
        exact hne e (List.mem_of_mem_filter he)
      · intro e he
        have hmem := List.mem_of_mem_filter he
        have hpred := List.of_mem_filter he
        have hka : e.1 ≠ a := by simpa using hpred
        rcases List.mem_cons.mp (hkey e hmem) with h | h
        · exact absurd h hka
        · exact h
    · rw [splitLocals, if_neg hc]
      refine ih lr hne ?_
      intro e he
      have hka : e.1 ≠ a := by
        intro hka
        cases hfind : lr.2.find? (fun f => f.1 == a) with
        | none =>
          have := List.find?_eq_none.mp hfind e he
          simp [hka] at this
        | some v =>
          have hvmem := List.mem_of_find?_eq_some hfind
          have hvne := hne v hvmem
          rw [hfind] at hc
          simp at hc
          exact hvne hc
      rcases List.mem_cons.mp (hkey e he) with h | h
      · exact absurd h hka
      · exact h

/-- C10: if every sender that has pending transactions is designated a local
account, BuildTransactionsLists returns the empty list of transaction lists
and no error, whatever the commit collaborator and even whatever the
prepareWork response: moving the local senders out of the remote map empties
the aliased pending map, and the early return on an empty pending map
discards the local transactions without ever invoking the list builder. -/
theorem C10_BuildTransactionsLists_locals_discarded :
    ∀ {σ : Type} (commitTx : CommitFn σ) (isEIP155 : Bool)
      (better : Tx → Tx → Bool) (head : Header)
      (pending : List (Nat × List Tx)) (localAccounts : List Nat)
      (prepare : Except BuildErr (Env σ))
      (blockMaxGasLimit maxTx maxBytes maxLists : Nat),
      (∀ e ∈ pending, e.2 ≠ []) →
      (∀ e ∈ pending, e.1 ∈ localAccounts) →
      BuildTransactionsLists commitTx isEIP155 better (some head) pending
        localAccounts prepare blockMaxGasLimit maxTx maxBytes maxLists =
        .ok [] := by
  intro σ commitTx isEIP155 better head pending localAccounts prepare
    blockMaxGasLimit maxTx maxBytes maxLists hne hkey
  have hnil : (splitLocals localAccounts ([], pending)).2 = [] :=
    splitLocals_remote_nil localAccounts ([], pending) hne hkey
  simp [BuildTransactionsLists, hnil]

/-- C10 witness: at a concrete pending map whose single sender is designated
local, the build returns the empty output and no error (here even with a
failing prepareWork response, which the early return never consults). -/
theorem C10_witness :
    BuildTransactionsLists wCommitAlwaysOk true (fun _ _ => true) (some wParent)
      [(1, [wTxA])] [1] (.error BuildErr.prepareFailed) 100000 5 1000 2 =
      .ok [] :=
  C10_BuildTransactionsLists_locals_discarded wCommitAlwaysOk true
    (fun _ _ => true) wParent [(1, [wTxA])] [1]
    (.error BuildErr.prepareFailed) 100000 5 1000 2
    (by simp) (by simp)

end Taiko
